import Mathlib

/-!
Real-Time Process Monitoring Dashboard (`moniter_mac2.cpp`)

A shallow embedding of the dashboard's command console and renderer helpers.

* `std::string` is a list of characters, `Str`.
* `int` is `Int`; the one place where the 32-bit range matters is the
  extraction `ss >> pid`, which fails outside `[INT_MIN, INT_MAX]`.
* `double` is `ℚ`: every finite double is a rational and comparisons are exact.
  The division and the product of `progressBar` are each rounded to the nearest
  double, ties to even (`roundToDouble`). Infinities and NaN are left out: a result
  that overflows is `none`.
* The two globals `running` and `globalProcesses` form the record `State`.
* Standard output is the text returned by each operation.
* The listener thread and the render loop of `main` are taken one loop pass at a
  time (`Event`, `step`, `run`); passes do not overlap.
-/

namespace Dashboard

/-- A `std::string`. -/
abbrev Str := List Char

/-! ## Colour escapes (lines 20-27) -/

def RESET : Str := "\x1b[0m".toList
def RED : Str := "\x1b[31m".toList
def GREEN : Str := "\x1b[32m".toList
def YELLOW : Str := "\x1b[33m".toList
def BLUE : Str := "\x1b[34m".toList
def CYAN : Str := "\x1b[36m".toList
def MAGENTA : Str := "\x1b[35m".toList
def WHITE : Str := "\x1b[37m".toList

/-! ## Data model (lines 29-37) -/

/-- The record `struct ProcessInfo`. -/
structure ProcessInfo where
  pid : Int
  name : Str
  cpuUsage : ℚ
  memUsage : ℚ
deriving DecidableEq

/-- The globals `running` and `globalProcesses`. -/
structure State where
  running : Bool
  globalProcesses : List ProcessInfo
deriving DecidableEq

/-! ## Library primitives used by the source -/

/-- Whether `c` is one of the characters of the literal `" \t\r\n"` that `trim` hands
to `find_first_not_of` and `find_last_not_of` (lines 41 and 43). -/
def inTrimSet (c : Char) : Bool :=
  c = ' ' || c = '\t' || c = '\r' || c = '\n'

/-- The C-locale `isspace`, the whitespace that `operator>>` skips:
space, `\t`, `\n`, `\v`, `\f`, `\r`. -/
def isspace (c : Char) : Bool :=
  c = ' ' || c = '\t' || c = '\n' || c = '\x0b' || c = '\x0c' || c = '\r'

/-- The C-locale `::tolower`: `A..Z` go to `a..z`, everything else is kept. -/
def tolower (c : Char) : Char :=
  if 'A'.toNat ≤ c.toNat ∧ c.toNat ≤ 'Z'.toNat then Char.ofNat (c.toNat + 32) else c

/-- The C-locale `isdigit`. -/
def isdigit (c : Char) : Bool :=
  decide ('0'.toNat ≤ c.toNat) && decide (c.toNat ≤ '9'.toNat)

/-- The call `s.find_first_not_of(" \t\r\n")`: index of the first character outside
the set, `none` for `npos`. -/
def find_first_not_of : Str → Option Nat
  | [] => none
  | c :: cs =>
    if inTrimSet c then (find_first_not_of cs).map (· + 1) else some 0

/-- The call `s.find_last_not_of(" \t\r\n")`: index of the last character outside
the set, `none` for `npos`. -/
def find_last_not_of : Str → Option Nat
  | [] => none
  | c :: cs =>
    match find_last_not_of cs with
    | some i => some (i + 1)
    | none => if inTrimSet c then none else some 0

/-- The call `s.substr(pos, n)` for `pos ≤ s.size()`. -/
def substr (s : Str) (pos n : Nat) : Str := (s.drop pos).take n

/-- The helper `trim` (lines 40-45). -/
def trim (s : Str) : Str :=
  match find_first_not_of s with
  | none => []
  | some start =>
    match find_last_not_of s with
    | none => []  -- not reached: a first character outside the set gives a last one
    | some e => substr s start (e - start + 1)

/-- The `transform(..., ::tolower)` of lines 150 and 161. -/
def lowerStr (s : Str) : Str := s.map tolower

/-- The extraction `ss >> cmd` into a `std::string`: skip leading whitespace, then take
characters up to the next whitespace. Returns the word and the unread rest of the
stream. -/
def extractWord (s : Str) : Str × Str :=
  let s1 := s.dropWhile isspace
  (s1.takeWhile (fun c => !isspace c), s1.dropWhile (fun c => !isspace c))

def INT_MAX : Int := 2147483647
def INT_MIN : Int := -2147483648

/-- Value of a run of decimal digits. -/
def digitsValue (ds : Str) : Nat :=
  ds.foldl (fun acc c => 10 * acc + (c.toNat - '0'.toNat)) 0

/-- Conversion of the accumulated digits of `ss >> pid`: no digit, or a value outside
`[INT_MIN, INT_MAX]`, sets `failbit` (`none`). -/
def digitsToInt (negative : Bool) (ds : Str) : Option Int :=
  if ds = [] then none
  else
    let v : Int := if negative then -(digitsValue ds : Int) else (digitsValue ds : Int)
    if INT_MIN ≤ v ∧ v ≤ INT_MAX then some v else none

/-- The numeric field of `ss >> pid` once whitespace has been skipped: an optional sign,
then the longest run of decimal digits; whatever follows the digits stays unread. -/
def parseSigned : Str → Option Int
  | [] => none
  | c :: t =>
    if c = '-' then digitsToInt true (t.takeWhile isdigit)
    else if c = '+' then digitsToInt false (t.takeWhile isdigit)
    else digitsToInt false ((c :: t).takeWhile isdigit)

/-- The extraction `ss >> pid` into an `int` together with its truth value in
`if (ss >> pid)`: `some pid` when the extraction succeeds, `none` when it fails. -/
def extractInt (s : Str) : Option Int := parseSigned (s.dropWhile isspace)

/-- The function `std::to_string` and `operator<<` on an `int`. -/
def to_string (n : Int) : Str := (toString n).toList

/-- Two decimal digits of `n < 100`. -/
def twoDigits (n : Nat) : Str := (Nat.toDigits 10 (n / 10)) ++ (Nat.toDigits 10 (n % 10))

/-- Rounding to the nearest integer, ties to even, of a non-negative value. -/
def roundHalfEven (x : ℚ) : Nat :=
  let f := ⌊x⌋₊
  let r := x - f
  if r < 1 / 2 then f
  else if 1 / 2 < r then f + 1
  else if f % 2 = 0 then f else f + 1

/-- Output of a `double` under `fixed << setprecision(2)`. -/
def fixed2 (x : ℚ) : Str :=
  let n := roundHalfEven (|x| * 100)
  (if x < 0 then ['-'] else []) ++ Nat.toDigits 10 (n / 100) ++ ['.'] ++ twoDigits (n % 100)

/-- Exponent of the spacing of the doubles around `x`: 52 below the binary exponent of
`x`, which is held at -1022 in the subnormal range. -/
def ulpExponent (x : ℚ) : Int := max (Int.log 2 |x|) (-1022) - 52

/-- The result of a `double` operation whose exact value is `x`: the nearest double, ties
to the even significand; `none` when the result overflows to infinity. -/
def roundToDouble (x : ℚ) : Option ℚ :=
  let y : ℚ := (roundHalfEven (|x| / 2 ^ ulpExponent x) : ℚ) * 2 ^ ulpExponent x
  if y < 2 ^ (1024 : Int) then some (if x < 0 then -y else y) else none

/-! ## Renderer helpers (lines 60-119) -/

/-- The conversion `static_cast<int>(x)`: truncation toward zero. The conversion is
undefined when the truncated value does not fit an `int`; that case is `none`. -/
def static_cast_int (x : ℚ) : Option Int :=
  let t : Int := if 0 ≤ x then ⌊x⌋ else ⌈x⌉
  if INT_MIN ≤ t ∧ t ≤ INT_MAX then some t else none

/-- The local `totalBars` of `progressBar`. -/
def totalBars : Int := 30

/-- The `double` value of `(percent / 100.0) * totalBars` in line 63: the quotient is
rounded, then the product. -/
def scaledValue (percent : ℚ) : Option ℚ :=
  (roundToDouble (percent / 100)).bind fun q => roundToDouble (q * totalBars)

/-- The value of `filled` after the two clamping tests of `progressBar` (lines 63-65). -/
def filledBars (percent : ℚ) : Option Int :=
  ((scaledValue percent).bind static_cast_int).map fun filled =>
    let filled := if filled < 0 then 0 else filled
    if filled > totalBars then totalBars else filled

/-- The function `progressBar` (lines 61-73). -/
def progressBar (percent : ℚ) : Option Str :=
  (filledBars percent).map fun filled =>
    ['['] ++ List.replicate filled.toNat '#' ++
      List.replicate (totalBars - filled).toNat '-' ++ [']']

/-- The status text of the high-usage branch: the three bytes of the warning sign, then
the words. -/
def HIGH_USAGE : Str := ['\xe2', '\x9a', '\xa0'] ++ " HIGH USAGE".toList

/-- The status text of the other branch. -/
def OK : Str := "OK".toList

/-- The `status` and `color` that `displayProcesses` chooses for a row (lines 100-109). -/
def rowStatus (p : ProcessInfo) : Str × Str :=
  if p.cpuUsage > 70 ∨ p.memUsage > 70 then (HIGH_USAGE, RED) else (OK, GREEN)

/-- Output of `left << setw(w) << s`: padded with spaces on the right up to `w`. -/
def setwLeft (w : Nat) (s : Str) : Str := s ++ List.replicate (w - s.length) ' '

/-- One row of the process table (lines 111-117). -/
def displayRow (p : ProcessInfo) : Str :=
  (rowStatus p).2 ++ setwLeft 10 (to_string p.pid) ++ setwLeft 20 p.name ++
    setwLeft 10 (fixed2 p.cpuUsage) ++ setwLeft 10 (fixed2 p.memUsage) ++
    setwLeft 20 (rowStatus p).1 ++ RESET ++ ['\n']

/-- The function `displayProcesses` (lines 88-119). -/
def displayProcesses (processes : List ProcessInfo) : Str :=
  CYAN ++ setwLeft 10 "PID".toList ++ setwLeft 20 "Process Name".toList ++
    setwLeft 10 "CPU%".toList ++ setwLeft 10 "MEM%".toList ++ setwLeft 20 "STATUS".toList ++
    RESET ++ ['\n'] ++
    WHITE ++ (List.replicate 69 '-' ++ ['\n']) ++ RESET ++
    (processes.map displayRow).flatten

/-! ## The simulated sample (lines 121-136) -/

/-- The entry pushed by iteration `i` of the loop of `getProcesses`. -/
def sampleEntry (i : Nat) : ProcessInfo :=
  { pid := 1000 + i
    name := "Process_".toList ++ to_string (i + 1)
    cpuUsage := 10 + i * 20
    memUsage := 18 + i * 25 }

/-- The vector `processes` after `n` iterations of the loop of `getProcesses`. -/
def getProcessesLoop : Nat → List ProcessInfo
  | 0 => []
  | n + 1 => getProcessesLoop n ++ [sampleEntry n]

/-- The function `getProcesses`: returns the five-entry sample and installs it as
`globalProcesses`. -/
def getProcesses (s : State) : List ProcessInfo × State :=
  let processes := getProcessesLoop 5
  (processes, { s with globalProcesses := processes })

/-- The function `getCPUUsage`: 45.5 is a double. -/
def getCPUUsage : ℚ := 455 / 10

/-- The function `getMemoryUsage`: the double nearest to 63.7. -/
def getMemoryUsage : ℚ := 4482489004117197 / 70368744177664

/-! ## The command console (`inputListener`, lines 138-207) -/

/-- What one input line asks for, following the branches of the loop body. -/
inductive Command where
  /-- The trimmed line is empty (`continue`, line 147). -/
  | blank
  /-- The whole trimmed line is `stop` in any letter case (line 152). -/
  | stop
  /-- First token `kill`, and `ss >> pid` succeeded. -/
  | kill (pid : Int)
  /-- First token `info`, and `ss >> pid` succeeded. -/
  | info (pid : Int)
  /-- First token `kill` or `info`, and `ss >> pid` failed; carries the usage text. -/
  | malformed (usage : Str)
  /-- Any other first token; carries the trimmed line. -/
  | unknown (cmdline : Str)
deriving DecidableEq

def usageKill : Str := "Usage: kill <pid>\n".toList
def usageInfo : Str := "Usage: info <pid>\n".toList

/-- The decisions of the loop body on one line read by `getline` (lines 146-205). -/
def parseLine (line : Str) : Command :=
  let cmdline := trim line
  if cmdline = [] then Command.blank
  else
    let lower := lowerStr cmdline
    if lower = "stop".toList then Command.stop
    else
      let word := extractWord cmdline
      let cmdLower := lowerStr word.1
      if cmdLower = "kill".toList then
        match extractInt word.2 with
        | some pid => Command.kill pid
        | none => Command.malformed usageKill
      else if cmdLower = "info".toList then
        match extractInt word.2 with
        | some pid => Command.info pid
        | none => Command.malformed usageInfo
      else Command.unknown cmdline

/-- The erase loop of the kill branch (lines 166-173): the registry afterwards and the
flag `removed`. -/
def eraseLoop (pid : Int) : List ProcessInfo → List ProcessInfo × Bool
  | [] => ([], false)
  | p :: rest =>
    if p.pid = pid then (rest, true)
    else ((eraseLoop pid rest).1.cons p, (eraseLoop pid rest).2)

/-- The record printed by the info branch (lines 188-192). -/
def infoRecord (p : ProcessInfo) : Str :=
  CYAN ++ "\nProcess Info:\n".toList ++
    " PID   : ".toList ++ to_string p.pid ++ ['\n'] ++
    " Name  : ".toList ++ p.name ++ ['\n'] ++
    " CPU%  : ".toList ++ fixed2 p.cpuUsage ++ "%\n".toList ++
    " MEM%  : ".toList ++ fixed2 p.memUsage ++ "%\n".toList ++ RESET

/-- The search loop of the info branch (lines 185-196): the text printed inside the loop
and the flag `found`. -/
def infoLoop (pid : Int) : List ProcessInfo → Str × Bool
  | [] => ([], false)
  | p :: rest => if p.pid = pid then (infoRecord p, true) else infoLoop pid rest

def terminatedMsg (pid : Int) : Str :=
  RED ++ "Simulated: Process ".toList ++ to_string pid ++ " terminated.\n".toList ++ RESET

def notFoundMsg (pid : Int) : Str :=
  YELLOW ++ "Process ".toList ++ to_string pid ++ " not found.\n".toList ++ RESET

def usageMsg (usage : Str) : Str := YELLOW ++ usage ++ RESET

def unknownMsg (cmdline : Str) : Str :=
  YELLOW ++ "Unknown command: \x27".toList ++ cmdline ++
    "\x27. Available: stop, kill <pid>, info <pid>\n".toList ++ RESET

/-- Result of one pass through the body of the listener loop. -/
structure Step where
  /-- The globals afterwards. -/
  state : State
  /-- The text written to standard output. -/
  output : Str
  /-- Whether the loop goes on to read another line (`false` after `break`). -/
  continues : Bool
deriving DecidableEq

/-- The effect of each branch of the loop body. -/
def execute (s : State) : Command → Step
  | Command.blank => { state := s, output := [], continues := true }
  | Command.stop => { state := { s with running := false }, output := [], continues := false }
  | Command.kill pid =>
    let r := eraseLoop pid s.globalProcesses
    { state := { s with globalProcesses := r.1 }
      output := if r.2 then terminatedMsg pid else notFoundMsg pid
      continues := true }
  | Command.info pid =>
    let r := infoLoop pid s.globalProcesses
    { state := s
      output := if r.2 then r.1 else r.1 ++ notFoundMsg pid
      continues := true }
  | Command.malformed usage => { state := s, output := usageMsg usage, continues := true }
  | Command.unknown cmdline => { state := s, output := unknownMsg cmdline, continues := true }

/-- One pass through the body of `while (running)` in `inputListener`: `none` is a failed
`getline` (end of input), `some line` a line that was read. -/
def listenerIteration (s : State) : Option Str → Step
  | none => { state := { s with running := false }, output := [], continues := false }
  | some line => execute s (parseLine line)

/-- The function `inputListener` on an input stream holding the given lines and then
end of input: the globals when the loop ends, and everything it printed. -/
def inputListener (s : State) : List Str → State × Str
  | [] =>
    if s.running then ((listenerIteration s none).state, (listenerIteration s none).output)
    else (s, [])
  | line :: rest =>
    if s.running then
      let r := listenerIteration s (some line)
      if r.continues then
        ((inputListener r.state rest).1, r.output ++ (inputListener r.state rest).2)
      else (r.state, r.output)
    else (s, [])

/-! ## The render loop (`main`, lines 209-243) -/

/-- The function `clearScreen` (lines 48-50). -/
def clearScreen : Str := "\x1b[2J\x1b[1;1H".toList

/-- The function `displayHeader` (lines 53-58). -/
def displayHeader : Str :=
  CYAN ++ "==================== ".toList ++ MAGENTA ++ "Real-Time Monitoring Dashboard".toList ++
    CYAN ++ " ====================".toList ++ RESET ++ "\n\n".toList

/-- The function `displayCPU` (lines 75-79); `none` when `progressBar` is undefined. -/
def displayCPU (cpuUsage : ℚ) : Option Str :=
  (progressBar cpuUsage).map fun bar =>
    YELLOW ++ "CPU Usage: ".toList ++ RESET ++ fixed2 cpuUsage ++ "% ".toList ++
      GREEN ++ bar ++ RESET ++ "\n".toList

/-- The function `displayMemory` (lines 81-85); `none` when `progressBar` is undefined. -/
def displayMemory (memUsage : ℚ) : Option Str :=
  (progressBar memUsage).map fun bar =>
    YELLOW ++ "Memory Usage: ".toList ++ RESET ++ fixed2 memUsage ++ "% ".toList ++
      BLUE ++ bar ++ RESET ++ "\n\n".toList

/-- The prompt printed under the table (lines 230-232), with the newline of `endl`. -/
def promptText : Str :=
  "\n".toList ++ MAGENTA ++
    "Type \x27stop\x27 to exit. Other commands: kill <pid>, info <pid>\n".toList ++
    RESET ++ "\n".toList

/-- Result of one pass through the body of `while (running)` in `main`. -/
structure Frame where
  /-- The globals afterwards. -/
  state : State
  /-- The vector `processes` handed to `displayProcesses`. -/
  processes : List ProcessInfo
  /-- The text written to standard output. -/
  output : Option Str

/-- One pass through the body of `while (running)` in `main` (lines 216-235), the
sleeping apart: the gauges, the fresh sample from `getProcesses`, the test of line 224
and the table. -/
def renderIteration (s : State) : Frame :=
  let sampled := getProcesses s
  let processes :=
    if !sampled.2.globalProcesses.isEmpty then sampled.2.globalProcesses else sampled.1
  { state := sampled.2
    processes := processes
    output :=
      (displayCPU getCPUUsage).bind fun cpu =>
        (displayMemory getMemoryUsage).map fun mem =>
          clearScreen ++ displayHeader ++ cpu ++ mem ++ displayProcesses processes ++
            promptText }

/-- What the program does next: the listener thread reads a line (or meets end of
input), or the render loop of `main` makes one pass. -/
inductive Event where
  | input (line : Option Str)
  | tick

/-- One event applied to the globals; each loop runs its body only while `running`
holds. -/
def step (s : State) : Event → State
  | Event.input line => if s.running then (listenerIteration s line).state else s
  | Event.tick => if s.running then (renderIteration s).state else s

/-- The globals after a sequence of events. -/
def run (s : State) (events : List Event) : State := events.foldl step s

/-- The globals at program start (lines 36-37). -/
def initial : State := { running := true, globalProcesses := [] }

/-! ## Vocabulary for the statements -/

/-- The pids of a registry, in order. -/
def pids (l : List ProcessInfo) : List Int := l.map ProcessInfo.pid

/-- The text `arg` begins, after optional whitespace, with an optionally signed run of
decimal digits whose value `pid` fits an `int`; the run is maximal, and whatever comes
after it is left open. -/
def startsWithInt (arg : Str) (pid : Int) : Prop :=
  ∃ ws sign ds tail : Str, arg = ws ++ sign ++ ds ++ tail ∧
    (∀ c ∈ ws, isspace c = true) ∧
    (sign = [] ∨ sign = ['+'] ∨ sign = ['-']) ∧
    ds ≠ [] ∧ (∀ c ∈ ds, isdigit c = true) ∧
    (∀ c, tail.head? = some c → isdigit c = false) ∧
    pid = (if sign = ['-'] then -(digitsValue ds : Int) else (digitsValue ds : Int)) ∧
    INT_MIN ≤ pid ∧ pid ≤ INT_MAX

/-- The first whitespace-delimited token of a line, as `operator>>` reads it. -/
def firstToken (line : Str) : Str := (extractWord line).1

/-- The registry that `getProcesses` installs, starting from the initial globals. -/
def seeded : State := (getProcesses { running := true, globalProcesses := [] }).2


/-! # Theorems -/

/-! ## The registry: erase and search loops -/

theorem eraseLoop_absent (pid : Int) (l : List ProcessInfo) (h : pid ∉ pids l) :
    eraseLoop pid l = (l, false) := by
  induction l with
  | nil => rfl
  | cons q rest ih =>
    have hq : q.pid ≠ pid := fun e => h (by simp [pids, e.symm])
    have hrest : pid ∉ pids rest := fun m => h (by
      simp only [pids, List.map_cons, List.mem_cons] at m ⊢
      exact Or.inr m)
    simp [eraseLoop, hq, ih hrest]

theorem eraseLoop_present_length (pid : Int) (l : List ProcessInfo) (h : pid ∈ pids l) :
    (eraseLoop pid l).1.length + 1 = l.length ∧ (eraseLoop pid l).2 = true := by
  induction l with
  | nil => simp [pids] at h
  | cons q rest ih =>
    by_cases hq : q.pid = pid
    · simp [eraseLoop, hq]
    · have hrest : pid ∈ pids rest := by
        simp only [pids, List.map_cons, List.mem_cons] at h ⊢
        rcases h with h | h
        · exact absurd h.symm hq
        · exact h
      simp [eraseLoop, hq, ih hrest]

theorem eraseLoop_nodup_absent (pid : Int) (l : List ProcessInfo) (h : (pids l).Nodup) :
    pid ∉ pids (eraseLoop pid l).1 := by
  induction l with
  | nil => simp [eraseLoop, pids]
  | cons q rest ih =>
    simp only [pids, List.map_cons, List.nodup_cons] at h
    by_cases hq : q.pid = pid
    · simp only [eraseLoop, hq, if_true]
      rw [← hq]
      exact h.1
    · simp only [eraseLoop, hq, if_false, pids, List.map_cons, List.mem_cons, not_or]
      exact ⟨fun e => hq e.symm, ih h.2⟩

theorem infoLoop_absent (pid : Int) (l : List ProcessInfo) (h : pid ∉ pids l) :
    infoLoop pid l = ([], false) := by
  induction l with
  | nil => rfl
  | cons q rest ih =>
    have hq : q.pid ≠ pid := fun e => h (by simp [pids, e.symm])
    have hrest : pid ∉ pids rest := fun m => h (by
      simp only [pids, List.map_cons, List.mem_cons] at m ⊢
      exact Or.inr m)
    simp [infoLoop, hq, ih hrest]

/-- Claim C1. In a registry with pairwise distinct pids that holds pid `p`, a line that
parses as `kill p` removes exactly one entry, and a following line that parses as
`info p` prints the not-found message and changes nothing. -/
theorem kill_then_info_not_found (s : State) (p : Int) (killLine infoLine : Str)
    (hnodup : (pids s.globalProcesses).Nodup) (hpresent : p ∈ pids s.globalProcesses)
    (hkill : parseLine killLine = Command.kill p)
    (hinfo : parseLine infoLine = Command.info p) :
    (listenerIteration (listenerIteration s (some killLine)).state (some infoLine)).output
        = notFoundMsg p ∧
      (listenerIteration s (some killLine)).state.globalProcesses.length + 1
        = s.globalProcesses.length ∧
      (listenerIteration s (some killLine)).output = terminatedMsg p ∧
      (listenerIteration (listenerIteration s (some killLine)).state (some infoLine)).state
        = (listenerIteration s (some killLine)).state := by
  have hlen := eraseLoop_present_length p s.globalProcesses hpresent
  have habs := eraseLoop_nodup_absent p s.globalProcesses hnodup
  simp only [listenerIteration, hkill, hinfo, execute, infoLoop_absent p _ habs, hlen.1,
    hlen.2]
  simp

theorem kill_then_info_not_found_witness :
    (listenerIteration (listenerIteration seeded (some "kill 1001".toList)).state
        (some "info 1001".toList)).output = notFoundMsg 1001 ∧
      (listenerIteration seeded (some "kill 1001".toList)).state.globalProcesses.length + 1
        = seeded.globalProcesses.length ∧
      (listenerIteration seeded (some "kill 1001".toList)).output = terminatedMsg 1001 ∧
      (listenerIteration (listenerIteration seeded (some "kill 1001".toList)).state
        (some "info 1001".toList)).state
        = (listenerIteration seeded (some "kill 1001".toList)).state :=
  kill_then_info_not_found seeded 1001 "kill 1001".toList "info 1001".toList
    (by decide) (by decide) (by decide) (by decide)

/-- Claim C2. When no entry carries pid `p`, a line that parses as `kill p` leaves the
erase loop with `removed = false` and the registry as it was, prints the not-found
message, and leaves the globals unchanged. -/
theorem kill_absent_unchanged (s : State) (p : Int) (killLine : Str)
    (habsent : p ∉ pids s.globalProcesses)
    (hkill : parseLine killLine = Command.kill p) :
    eraseLoop p s.globalProcesses = (s.globalProcesses, false) ∧
      listenerIteration s (some killLine)
        = { state := s, output := notFoundMsg p, continues := true } := by
  have h := eraseLoop_absent p s.globalProcesses habsent
  simp [listenerIteration, hkill, execute, h]

theorem kill_absent_unchanged_witness :
    eraseLoop 42 seeded.globalProcesses = (seeded.globalProcesses, false) ∧
      listenerIteration seeded (some "  kill   42  ".toList)
        = { state := seeded, output := notFoundMsg 42, continues := true } :=
  kill_absent_unchanged seeded 42 "  kill   42  ".toList (by decide) (by decide)


/-! ## `trim` -/

theorem find_first_ws_prefix (pre x : Str) (hpre : ∀ c ∈ pre, inTrimSet c = true) :
    find_first_not_of (pre ++ x) = (find_first_not_of x).map (· + pre.length) := by
  induction pre with
  | nil => simp
  | cons a pre ih =>
    have ha : inTrimSet a = true := hpre a (List.mem_cons_self _ _)
    have ih2 := ih (fun c hc => hpre c (List.mem_cons_of_mem _ hc))
    rw [List.cons_append]
    simp only [find_first_not_of, ha, if_true, ih2, List.length_cons]
    cases find_first_not_of x <;> simp [Nat.add_assoc]

theorem find_first_all_ws (l : Str) (h : ∀ c ∈ l, inTrimSet c = true) :
    find_first_not_of l = none := by
  have := find_first_ws_prefix l [] h
  simpa [find_first_not_of] using this

theorem find_last_all_ws (l : Str) (h : ∀ c ∈ l, inTrimSet c = true) :
    find_last_not_of l = none := by
  induction l with
  | nil => rfl
  | cons a l ih =>
    have ha : inTrimSet a = true := h a (List.mem_cons_self _ _)
    simp [find_last_not_of, ih (fun c hc => h c (List.mem_cons_of_mem _ hc)), ha]

theorem find_last_append_ws (x post : Str) (h : ∀ c ∈ post, inTrimSet c = true) :
    find_last_not_of (x ++ post) = find_last_not_of x := by
  induction x with
  | nil => simpa [find_last_not_of] using find_last_all_ws post h
  | cons a x ih =>
    rw [List.cons_append]
    simp only [find_last_not_of, ih]

theorem find_last_concat (a : Str) (z : Char) (hz : inTrimSet z = false) :
    find_last_not_of (a ++ [z]) = some a.length := by
  induction a with
  | nil => simp [find_last_not_of, hz]
  | cons b a ih => simp [find_last_not_of, ih]

/-- The result of `trim` is the part between the leading and the trailing run of
characters that `trim` strips. -/
theorem trim_eq_core (pre core post : Str)
    (hpre : ∀ c ∈ pre, inTrimSet c = true) (hpost : ∀ c ∈ post, inTrimSet c = true)
    (hhead : ∀ c, core.head? = some c → inTrimSet c = false)
    (hlast : ∀ c, core.getLast? = some c → inTrimSet c = false) :
    trim (pre ++ core ++ post) = core := by
  rcases List.eq_nil_or_concat core with hnil | ⟨init, z, hcore⟩
  · subst hnil
    have hall : ∀ c ∈ pre ++ post, inTrimSet c = true := by
      intro c hc
      rcases List.mem_append.mp hc with hc | hc
      · exact hpre c hc
      · exact hpost c hc
    simp [trim, find_first_all_ws _ hall]
  · rw [List.concat_eq_append] at hcore
    have hz : inTrimSet z = false := hlast z (by simp [hcore])
    have hfirst : find_first_not_of (pre ++ core ++ post) = some pre.length := by
      rw [List.append_assoc, find_first_ws_prefix pre _ hpre]
      cases hc : core with
      | nil => simp [hcore] at hc
      | cons h t =>
        have hh : inTrimSet h = false := hhead h (by simp [hc])
        simp [find_first_not_of, hh]
    have hlastidx : find_last_not_of (pre ++ core ++ post) = some (pre.length + init.length) := by
      rw [find_last_append_ws _ post hpost, hcore, ← List.append_assoc,
        find_last_concat _ z hz, List.length_append]
    have hlen : core.length = init.length + 1 := by simp [hcore]
    simp only [trim, hfirst, hlastidx, substr]
    rw [List.append_assoc, List.drop_left, Nat.add_sub_cancel_left, ← hlen, List.take_left]

theorem exists_trim_decomp (l : Str) :
    ∃ pre core post, l = pre ++ core ++ post ∧
      (∀ c ∈ pre, inTrimSet c = true) ∧ (∀ c ∈ post, inTrimSet c = true) ∧
      (∀ c, core.head? = some c → inTrimSet c = false) ∧
      (∀ c, core.getLast? = some c → inTrimSet c = false) := by
  induction l with
  | nil => exact ⟨[], [], [], rfl, by simp, by simp, by simp, by simp⟩
  | cons a l ih =>
    obtain ⟨pre, core, post, hl, hpre, hpost, hhead, hlast⟩ := ih
    by_cases ha : inTrimSet a = true
    · refine ⟨a :: pre, core, post, by simp [hl], ?_, hpost, hhead, hlast⟩
      intro c hc
      rcases List.mem_cons.mp hc with rfl | hc
      · exact ha
      · exact hpre c hc
    · have ha2 : inTrimSet a = false := by simpa using ha
      cases hc : core.getLast? with
      | none =>
        have hnil : core = [] := List.getLast?_eq_none_iff.mp hc
        subst hnil
        refine ⟨[], [a], pre ++ post, by simp [hl], by simp, ?_, by simp [ha2], by simp [ha2]⟩
        intro c hc
        rcases List.mem_append.mp hc with hc | hc
        · exact hpre c hc
        · exact hpost c hc
      | some z =>
        refine ⟨[], a :: (pre ++ core), post, by simp [hl], by simp, hpost, by simp [ha2], ?_⟩
        intro c hcl
        apply hlast c
        simpa [List.getLast?_cons, List.getLast?_append, hc] using hcl

/-- Characters of the trim set added in front of, or behind, a line do not change what
`trim` returns. -/
theorem trim_pad (pre post l : Str)
    (hpre : ∀ c ∈ pre, inTrimSet c = true) (hpost : ∀ c ∈ post, inTrimSet c = true) :
    trim (pre ++ l ++ post) = trim l := by
  obtain ⟨a, core, b, hl, ha, hb, hhead, hlast⟩ := exists_trim_decomp l
  have h1 : trim l = core := by rw [hl]; exact trim_eq_core a core b ha hb hhead hlast
  have h2 : pre ++ l ++ post = (pre ++ a) ++ core ++ (b ++ post) := by simp [hl]
  rw [h1, h2]
  apply trim_eq_core _ _ _ _ _ hhead hlast
  · intro c hc
    rcases List.mem_append.mp hc with hc | hc
    · exact hpre c hc
    · exact ha c hc
  · intro c hc
    rcases List.mem_append.mp hc with hc | hc
    · exact hb c hc
    · exact hpost c hc


/-! ## Characters -/

theorem inTrimSet_cases (c : Char) (h : inTrimSet c = true) :
    c = ' ' ∨ c = '\t' ∨ c = '\r' ∨ c = '\n' := by
  simpa [inTrimSet, or_assoc] using h

theorem isspace_cases (c : Char) (h : isspace c = true) :
    c = ' ' ∨ c = '\t' ∨ c = '\n' ∨ c = '\x0b' ∨ c = '\x0c' ∨ c = '\r' := by
  simpa [isspace, or_assoc] using h

theorem inTrimSet_isspace (c : Char) (h : inTrimSet c = true) : isspace c = true := by
  rcases inTrimSet_cases c h with rfl | rfl | rfl | rfl <;> decide

theorem isspace_facts (c : Char) (h : isspace c = true) :
    tolower c = c ∧ isdigit c = false ∧ c ≠ '-' ∧ c ≠ '+' := by
  rcases isspace_cases c h with rfl | rfl | rfl | rfl | rfl | rfl <;> decide

/-- A word whose lower-case form has no whitespace has none itself. -/
theorem lower_spacefree (w target : Str) (h : lowerStr w = target)
    (ht : ∀ c ∈ target, isspace c = false) : ∀ c ∈ w, isspace c = false := by
  intro c hc
  by_contra hsp
  have hsp2 : isspace c = true := by simpa using hsp
  have hmem : tolower c ∈ target := by
    rw [← h]
    exact List.mem_map_of_mem tolower hc
  rw [(isspace_facts c hsp2).1] at hmem
  rw [ht c hmem] at hsp2
  exact Bool.false_ne_true hsp2

theorem not_isspace_not_inTrimSet (c : Char) (h : isspace c = false) : inTrimSet c = false := by
  by_contra hc
  have := inTrimSet_isspace c (by simpa using hc)
  rw [h] at this
  exact Bool.false_ne_true this


/-! ## Token and number extraction -/

theorem extractWord_word (w r : Str) (hne : w ≠ [])
    (hw : ∀ c ∈ w, isspace c = false)
    (hr : ∀ c, r.head? = some c → isspace c = true) :
    extractWord (w ++ r) = (w, r) := by
  cases w with
  | nil => exact absurd rfl hne
  | cons a w =>
    have ha : isspace a = false := hw a (List.mem_cons_self _ _)
    have hdrop : (a :: w ++ r).dropWhile isspace = a :: w ++ r := by
      rw [List.cons_append, List.dropWhile_cons_of_neg (by simp [ha])]
    have hall : ∀ c ∈ a :: w, (fun c => !isspace c) c = true := by
      intro c hc
      simp [hw c hc]
    have hrtake : r.takeWhile (fun c => !isspace c) = [] := by
      cases r with
      | nil => rfl
      | cons b r => simp [List.takeWhile, hr b rfl]
    have hrdrop : r.dropWhile (fun c => !isspace c) = r := by
      cases r with
      | nil => rfl
      | cons b r => simp [List.dropWhile, hr b rfl]
    simp only [extractWord, hdrop, List.takeWhile_append_of_pos hall,
      List.dropWhile_append_of_pos hall, hrtake, hrdrop, List.append_nil]

theorem takeWhile_isdigit_append_ws (t post : Str) (hpost : ∀ c ∈ post, isspace c = true) :
    (t ++ post).takeWhile isdigit = t.takeWhile isdigit := by
  induction t with
  | nil =>
    cases post with
    | nil => rfl
    | cons b post =>
      simp [List.takeWhile, (isspace_facts b (hpost b (List.mem_cons_self _ _))).2.1]
  | cons a t ih =>
    rw [List.cons_append, List.takeWhile_cons, List.takeWhile_cons, ih]

theorem parseSigned_nil_of_ws (post : Str) (hpost : ∀ c ∈ post, isspace c = true) :
    parseSigned (post.dropWhile isspace) = none := by
  have h : post.dropWhile isspace = [] := by
    rw [List.dropWhile_eq_nil_iff]
    exact hpost
  rw [h]
  rfl

/-- Whitespace after the text does not change what `ss >> pid` extracts. -/
theorem extractInt_append_ws (r post : Str) (hpost : ∀ c ∈ post, isspace c = true) :
    extractInt (r ++ post) = extractInt r := by
  induction r with
  | nil =>
    simp only [extractInt, List.nil_append, parseSigned_nil_of_ws post hpost]
    rfl
  | cons a r ih =>
    by_cases ha : isspace a = true
    · simp only [extractInt, List.cons_append, List.dropWhile_cons_of_pos ha] at ih ⊢
      exact ih
    · simp only [extractInt, List.cons_append, List.dropWhile_cons_of_neg ha, parseSigned]
      rw [← List.cons_append, takeWhile_isdigit_append_ws r post hpost,
        takeWhile_isdigit_append_ws (a :: r) post hpost]

/-- Whitespace in front of the text does not change what `ss >> pid` extracts. -/
theorem extractInt_ws_append (ws r : Str) (hws : ∀ c ∈ ws, isspace c = true) :
    extractInt (ws ++ r) = extractInt r := by
  simp only [extractInt, List.dropWhile_append_of_pos hws]

/-- Trimming a line that starts with a whitespace-free word keeps the word and cuts
only characters of the trim set from the end of what follows. -/
theorem trim_word_append (w r : Str) (hne : w ≠ []) (hw : ∀ c ∈ w, isspace c = false) :
    ∃ r0 post, r = r0 ++ post ∧ (∀ c ∈ post, inTrimSet c = true) ∧
      trim (w ++ r) = w ++ r0 := by
  have hwhead : ∀ c, w.head? = some c → inTrimSet c = false := by
    intro c hc
    exact not_isspace_not_inTrimSet c (hw c (List.mem_of_mem_head? hc))
  have hwlast : ∀ c, w.getLast? = some c → inTrimSet c = false := by
    intro c hc
    exact not_isspace_not_inTrimSet c (hw c (List.mem_of_mem_getLast? hc))
  obtain ⟨pre, core, post, hr, hpre, hpost, hhead, hlast⟩ := exists_trim_decomp r
  cases hc : core.getLast? with
  | none =>
    have hnil : core = [] := List.getLast?_eq_none_iff.mp hc
    subst hnil
    refine ⟨[], pre ++ post, by simp [hr], ?_, ?_⟩
    · intro c hc
      rcases List.mem_append.mp hc with hc | hc
      · exact hpre c hc
      · exact hpost c hc
    · have h := trim_eq_core [] w (pre ++ post) (by simp) (by
        intro c hc
        rcases List.mem_append.mp hc with hc | hc
        · exact hpre c hc
        · exact hpost c hc) hwhead hwlast
      simpa [hr] using h
  | some z =>
    refine ⟨pre ++ core, post, by simp [hr], hpost, ?_⟩
    have h := trim_eq_core [] (w ++ (pre ++ core)) post (by simp) hpost (by
      intro c hcl
      cases w with
      | nil => exact absurd rfl hne
      | cons a w => exact hwhead c (by simpa using hcl)) (by
      intro c hcl
      apply hlast c
      simpa [List.getLast?_append, hc] using hcl)
    simpa [hr] using h


/-! ## `parseLine` -/

/-- The command of a `kill` or `info` line, given what `ss >> pid` extracted. -/
theorem parseLine_word (w r target : Str)
    (htarget : target = "kill".toList ∨ target = "info".toList)
    (hw : lowerStr w = target)
    (hr : ∀ c, r.head? = some c → isspace c = true) :
    parseLine (w ++ r) =
      if target = "kill".toList then
        match extractInt r with
        | some pid => Command.kill pid
        | none => Command.malformed usageKill
      else
        match extractInt r with
        | some pid => Command.info pid
        | none => Command.malformed usageInfo := by
  have hsf : ∀ c ∈ w, isspace c = false := by
    apply lower_spacefree w target hw
    rcases htarget with h | h <;> subst h <;> decide
  have hne : w ≠ [] := by
    intro h
    subst h
    rcases htarget with h | h <;> subst h <;> exact absurd hw (by decide)
  obtain ⟨r0, post, hsplit, hpost, htrim⟩ := trim_word_append w r hne hsf
  have hr0 : ∀ c, r0.head? = some c → isspace c = true := by
    intro c hc
    apply hr c
    rw [hsplit, List.head?_append, hc]
    rfl
  have hint : extractInt r0 = extractInt r := by
    rw [hsplit, extractInt_append_ws r0 post (fun c hc => inTrimSet_isspace c (hpost c hc))]
  have hnil : w ++ r0 ≠ [] := by simp [hne]
  have hstop : lowerStr (w ++ r0) ≠ "stop".toList := by
    simp only [lowerStr, List.map_append]
    rw [show List.map tolower w = target from hw]
    rcases htarget with h | h <;> subst h <;> simp
  have hlow : lowerStr w = target := hw
  simp only [parseLine, htrim, hnil, if_false, hstop, extractWord_word w r0 hne hsf hr0,
    hint, hlow]
  rcases htarget with h | h <;> subst h <;> simp

/-- Every case variant of `stop`, alone on the line, is the stop command. -/
theorem parseLine_stop_word (w : Str) (hw : lowerStr w = "stop".toList) :
    parseLine w = Command.stop := by
  have hsf : ∀ c ∈ w, isspace c = false := lower_spacefree w _ hw (by decide)
  have hne : w ≠ [] := by
    intro h
    subst h
    exact absurd hw (by decide)
  obtain ⟨r0, post, hsplit, -, htrim⟩ := trim_word_append w [] hne hsf
  have hr0 : r0 = [] := by
    cases r0 with
    | nil => rfl
    | cons a t => simp at hsplit
  rw [hr0] at htrim
  simp only [List.append_nil] at htrim
  simp [parseLine, htrim, hne, hw]

/-- A line is parsed through its trimmed form only. -/
theorem parseLine_pad (pre post l : Str)
    (hpre : ∀ c ∈ pre, inTrimSet c = true) (hpost : ∀ c ∈ post, inTrimSet c = true) :
    parseLine (pre ++ l ++ post) = parseLine l := by
  simp only [parseLine, trim_pad pre post l hpre hpost]


/-- Claim C3, as the code has it. Padding a line with the characters that `trim` strips
(space, tab, carriage return, line feed), in front and behind, does not change the parsed
command; and for a line made of a `kill` or `info` token (any letter case) and an
argument text, the run of whitespace between the two (any character `operator>>` skips)
may be replaced by any other such run. In particular the padded line `"  kill   42  "`
parses as `"kill 42"` does, to `kill 42`. -/
theorem parse_whitespace_insensitive (line pre post w gap gap2 arg : Str)
    (hpre : ∀ c ∈ pre, inTrimSet c = true) (hpost : ∀ c ∈ post, inTrimSet c = true)
    (hw : lowerStr w = "kill".toList ∨ lowerStr w = "info".toList)
    (hgap : gap ≠ [] ∧ ∀ c ∈ gap, isspace c = true)
    (hgap2 : gap2 ≠ [] ∧ ∀ c ∈ gap2, isspace c = true) :
    parseLine (pre ++ line ++ post) = parseLine line ∧
      parseLine (pre ++ (w ++ gap2 ++ arg) ++ post) = parseLine (w ++ gap ++ arg) ∧
      parseLine "  kill   42  ".toList = parseLine "kill 42".toList ∧
      parseLine "kill 42".toList = Command.kill 42 := by
  have hhead : ∀ (g : Str), g ≠ [] → (∀ c ∈ g, isspace c = true) →
      ∀ c, (g ++ arg).head? = some c → isspace c = true := by
    intro g hne hall c hc
    cases g with
    | nil => exact absurd rfl hne
    | cons a g =>
      simp only [List.cons_append, List.head?_cons, Option.some.injEq] at hc
      exact hc ▸ hall a (List.mem_cons_self _ _)
  refine ⟨parseLine_pad pre post line hpre hpost, ?_, by decide, by decide⟩
  rw [parseLine_pad pre post _ hpre hpost, List.append_assoc, List.append_assoc,
    parseLine_word w (gap2 ++ arg) _ (by
      rcases hw with h | h
      · exact Or.inl h
      · exact Or.inr h) rfl (hhead gap2 hgap2.1 hgap2.2),
    parseLine_word w (gap ++ arg) _ (by
      rcases hw with h | h
      · exact Or.inl h
      · exact Or.inr h) rfl (hhead gap hgap.1 hgap.2),
    extractInt_ws_append gap2 arg hgap2.2, extractInt_ws_append gap arg hgap.2]

theorem parse_whitespace_insensitive_witness :
    parseLine ("\t ".toList ++ "Info 7".toList ++ " \x0d".toList) = parseLine "Info 7".toList ∧
      parseLine ("\t ".toList ++ ("KILL".toList ++ " \x0b\t  ".toList ++ "1001 x".toList)
          ++ " \x0d".toList)
        = parseLine ("KILL".toList ++ " ".toList ++ "1001 x".toList) ∧
      parseLine "  kill   42  ".toList = parseLine "kill 42".toList ∧
      parseLine "kill 42".toList = Command.kill 42 :=
  parse_whitespace_insensitive "Info 7".toList "\t ".toList " \x0d".toList "KILL".toList
    " ".toList " \x0b\t  ".toList "1001 x".toList
    (by decide) (by decide) (by decide) (by decide) (by decide)

/-- Claim C3 fails for the whitespace that `trim` does not strip, and for lines with
another first token: a form feed behind `stop` or a vertical tab in front of it turns
the stop command into an unknown one, a vertical tab behind `kill 42` does not; and an
unknown line keeps its inner whitespace, so widening it changes the command. -/
theorem untrimmed_whitespace_changes_command :
    isspace '\x0c' = true ∧ isspace '\x0b' = true ∧
      parseLine "stop".toList = Command.stop ∧
      parseLine "stop\x0c".toList = Command.unknown "stop\x0c".toList ∧
      parseLine "\x0bstop".toList = Command.unknown "\x0bstop".toList ∧
      parseLine "stop\x0c".toList ≠ parseLine "stop".toList ∧
      parseLine "kill 42\x0b".toList = parseLine "kill 42".toList ∧
      parseLine "foo bar".toList = Command.unknown "foo bar".toList ∧
      parseLine "foo  bar".toList = Command.unknown "foo  bar".toList ∧
      parseLine "foo  bar".toList ≠ parseLine "foo bar".toList := by
  decide

/-- Claim C4. The command token is matched without regard to letter case: a line that
is any case variant of `stop` is the stop command, and a case variant of `kill` or `info`
followed by an argument text parses to the same command as the lower-case token followed
by the same text. -/
theorem parse_case_insensitive (v w arg : Str)
    (hv : lowerStr v = "stop".toList)
    (hw : lowerStr w = "kill".toList ∨ lowerStr w = "info".toList)
    (harg : ∀ c, arg.head? = some c → isspace c = true) :
    parseLine v = Command.stop ∧
      parseLine "STOP".toList = parseLine "stop".toList ∧
      parseLine (w ++ arg) = parseLine (lowerStr w ++ arg) := by
  refine ⟨parseLine_stop_word v hv, by decide, ?_⟩
  have hidem : lowerStr (lowerStr w) = lowerStr w := by
    rcases hw with h | h <;> rw [h] <;> decide
  rw [parseLine_word w arg _ hw rfl harg,
    parseLine_word (lowerStr w) arg (lowerStr w) hw hidem harg]

theorem parse_case_insensitive_witness :
    parseLine "sToP".toList = Command.stop ∧
      parseLine "STOP".toList = parseLine "stop".toList ∧
      parseLine ("KiLl".toList ++ " 1001".toList)
        = parseLine (lowerStr "KiLl".toList ++ " 1001".toList) :=
  parse_case_insensitive "sToP".toList "KiLl".toList " 1001".toList
    (by decide) (by decide) (by decide)


/-- Claim C5. The status shown for a row of the process table is HIGH USAGE exactly when
`cpuUsage > 70` or `memUsage > 70`, and OK otherwise; the comparison is strict, so
cpu 71 with mem 0 is HIGH USAGE and cpu 70 with mem 70 is OK. -/
theorem rowStatus_high_iff (p : ProcessInfo) :
    ((rowStatus p).1 = HIGH_USAGE ↔ (p.cpuUsage > 70 ∨ p.memUsage > 70)) ∧
      ((rowStatus p).1 = OK ↔ ¬ (p.cpuUsage > 70 ∨ p.memUsage > 70)) ∧
      (rowStatus { p with cpuUsage := 71, memUsage := 0 }).1 = HIGH_USAGE ∧
      (rowStatus { p with cpuUsage := 70, memUsage := 70 }).1 = OK := by
  have hne : HIGH_USAGE ≠ OK := by decide
  refine ⟨?_, ?_, ?_, ?_⟩
  · by_cases h : p.cpuUsage > 70 ∨ p.memUsage > 70
    · simp [rowStatus, h]
    · simp only [rowStatus, h, if_false, iff_false]
      exact fun e => hne e.symm
  · by_cases h : p.cpuUsage > 70 ∨ p.memUsage > 70
    · simp only [rowStatus, h, if_true, not_true, iff_false]
      exact hne
    · simp [rowStatus, h]
  · have h : (71 : ℚ) > 70 ∨ (0 : ℚ) > 70 := Or.inl (by norm_num)
    simp only [rowStatus, h, if_true]
  · have h : ¬ ((70 : ℚ) > 70 ∨ (70 : ℚ) > 70) := by norm_num
    simp only [rowStatus, h, if_false]

theorem static_cast_int_of_nonneg (x : ℚ) (h0 : 0 ≤ x) (h1 : x < 2147483648) :
    static_cast_int x = some ⌊x⌋ := by
  have hlo : INT_MIN ≤ ⌊x⌋ := le_trans (by decide) (Int.floor_nonneg.mpr h0)
  have hhi : ⌊x⌋ ≤ INT_MAX := by
    have : ⌊x⌋ < 2147483648 := Int.floor_lt.mpr (by exact_mod_cast h1)
    unfold INT_MAX
    omega
  simp [static_cast_int, h0, hlo, hhi]

theorem static_cast_int_of_neg (x : ℚ) (h0 : x < 0) (h1 : -2147483649 < x) :
    static_cast_int x = some ⌈x⌉ := by
  have hhi : ⌈x⌉ ≤ INT_MAX := le_trans (Int.ceil_le.mpr (by exact_mod_cast h0.le)) (by decide)
  have hlo : INT_MIN ≤ ⌈x⌉ := by
    have : (-2147483649 : Int) < ⌈x⌉ := Int.lt_ceil.mpr (by exact_mod_cast h1)
    unfold INT_MIN
    omega
  simp [static_cast_int, not_le.mpr h0, hlo, hhi]

/-! ### Rounding to a double -/

theorem roundHalfEven_near (x : ℚ) (n : Nat) (h : |x - n| < 1 / 2) : roundHalfEven x = n := by
  rw [abs_lt] at h
  obtain ⟨h1, h2⟩ := h
  by_cases hx : (n : ℚ) ≤ x
  · have hf : ⌊x⌋₊ = n := by
      rw [Nat.floor_eq_iff (le_trans (Nat.cast_nonneg n) hx)]
      constructor
      · exact hx
      · linarith
    simp only [roundHalfEven, hf]
    rw [if_pos (by linarith)]
  · have hx' : x < n := not_le.mp hx
    rcases Nat.eq_zero_or_pos n with h0 | hpos
    · subst h0
      have hf : ⌊x⌋₊ = 0 := Nat.floor_eq_zero.mpr (by simpa using lt_trans hx' zero_lt_one)
      simp only [roundHalfEven, hf]
      rw [if_pos (by simp at hx'; simp; linarith)]
    · obtain ⟨m, rfl⟩ : ∃ m, n = m + 1 := ⟨n - 1, by omega⟩
      have hm : ((m + 1 : Nat) : ℚ) = (m : ℚ) + 1 := by push_cast; rfl
      rw [hm] at h1 h2 hx'
      have hf : ⌊x⌋₊ = m := by
        rw [Nat.floor_eq_iff (by linarith [Nat.cast_nonneg (α := ℚ) m])]
        constructor <;> linarith
      simp only [roundHalfEven, hf]
      rw [if_neg (by linarith), if_pos (by linarith)]

theorem log_two_eq (x : ℚ) (e : ℤ) (hlo : (2 : ℚ) ^ e ≤ x) (hhi : x < 2 ^ (e + 1)) :
    Int.log 2 x = e := by
  have hpos : 0 < x := lt_of_lt_of_le (by positivity) hlo
  have h2 : ((2 : ℕ) : ℚ) = 2 := by norm_num
  apply le_antisymm
  · have := (Int.lt_zpow_iff_log_lt (b := 2) (by norm_num) hpos (x := e + 1)).mp
      (by rw [h2]; exact hhi)
    omega
  · exact (Int.zpow_le_iff_le_log (b := 2) (by norm_num) hpos).mp (by rw [h2]; exact hlo)

/-- Evaluation of a rounding: a value of binary exponent `e` in the normal range that lies
within half a spacing of `n * 2 ^ (e - 52)` rounds to it. -/
theorem roundToDouble_of_near (x : ℚ) (e : ℤ) (n : Nat)
    (hlo : (2 : ℚ) ^ e ≤ x) (hhi : x < 2 ^ (e + 1)) (he : -1022 ≤ e ∧ e ≤ 1022)
    (hnear : |x / 2 ^ (e - 52) - n| < 1 / 2) :
    roundToDouble x = some ((n : ℚ) * 2 ^ (e - 52)) := by
  have hpos : 0 < x := lt_of_lt_of_le (by positivity) hlo
  have hu : ulpExponent x = e - 52 := by
    unfold ulpExponent
    rw [abs_of_pos hpos, log_two_eq x e hlo hhi, max_eq_left he.1]
  have hupos : (0 : ℚ) < 2 ^ (e - 52) := by positivity
  have hr : roundHalfEven (|x| / 2 ^ (e - 52)) = n := by
    rw [abs_of_pos hpos]
    exact roundHalfEven_near _ n hnear
  have hy : (n : ℚ) * 2 ^ (e - 52) < 2 ^ (1024 : Int) := by
    have h1 : (n : ℚ) - x / 2 ^ (e - 52) < 1 / 2 := by
      have := (abs_lt.mp hnear).1
      linarith
    have h2 : (n : ℚ) * 2 ^ (e - 52) < x + 2 ^ (e - 52) / 2 := by
      have h3 : (n : ℚ) < x / 2 ^ (e - 52) + 1 / 2 := by linarith
      calc (n : ℚ) * 2 ^ (e - 52) < (x / 2 ^ (e - 52) + 1 / 2) * 2 ^ (e - 52) :=
            mul_lt_mul_of_pos_right h3 hupos
        _ = x + 2 ^ (e - 52) / 2 := by
          field_simp
          ring
    have h4 : (2 : ℚ) ^ (e - 52) ≤ 2 ^ (e + 1) := zpow_le_zpow_right₀ (by norm_num) (by omega)
    have h5 : (2 : ℚ) ^ (e + 1) ≤ 2 ^ (1023 : Int) := zpow_le_zpow_right₀ (by norm_num) (by omega)
    have h6 : (2 : ℚ) ^ (1024 : Int) = 2 * 2 ^ (1023 : Int) := by
      rw [show (1024 : Int) = 1023 + 1 by norm_num, zpow_add_one₀ (by norm_num)]
      ring
    have h7 : (0 : ℚ) < 2 ^ (e + 1) := by positivity
    rw [h6]
    linarith
  simp only [roundToDouble, hu, hr, hy, if_true, not_lt.mpr hpos.le, if_false]

theorem roundToDouble_zero : roundToDouble 0 = some 0 := by
  have hr : roundHalfEven 0 = 0 := by simpa using roundHalfEven_near 0 0 (by norm_num)
  have h0 : (0 : ℚ) < 2 ^ (1024 : Int) := by positivity
  simp [roundToDouble, hr, h0]

/-- Evaluation of the scaled value of `progressBar`: the two roundings, one after the
other. -/
theorem scaledValue_eval (percent : ℚ) (e1 e2 : ℤ) (n1 n2 : Nat)
    (h1lo : (2 : ℚ) ^ e1 ≤ percent / 100) (h1hi : percent / 100 < 2 ^ (e1 + 1))
    (he1 : -1022 ≤ e1 ∧ e1 ≤ 1022)
    (h1near : |percent / 100 / 2 ^ (e1 - 52) - n1| < 1 / 2)
    (h2lo : (2 : ℚ) ^ e2 ≤ (n1 : ℚ) * 2 ^ (e1 - 52) * 30)
    (h2hi : (n1 : ℚ) * 2 ^ (e1 - 52) * 30 < 2 ^ (e2 + 1))
    (he2 : -1022 ≤ e2 ∧ e2 ≤ 1022)
    (h2near : |(n1 : ℚ) * 2 ^ (e1 - 52) * 30 / 2 ^ (e2 - 52) - n2| < 1 / 2) :
    scaledValue percent = some ((n2 : ℚ) * 2 ^ (e2 - 52)) := by
  have ht : ((totalBars : Int) : ℚ) = 30 := by norm_num [totalBars]
  unfold scaledValue
  rw [roundToDouble_of_near _ e1 n1 h1lo h1hi he1 h1near, Option.some_bind, ht]
  exact roundToDouble_of_near _ e2 n2 h2lo h2hi he2 h2near

theorem scaledValue_zero (percent : ℚ) (h : percent / 100 = 0) : scaledValue percent = some 0 := by
  unfold scaledValue
  rw [h, roundToDouble_zero, Option.some_bind, zero_mul, roundToDouble_zero]

/-- When the exact scaled value is a whole number of slots, the two roundings give that
number back. -/
theorem scaledValue_whole (percent : ℚ) (k : Nat) (hk : k ≤ 30)
    (h : percent / 100 = (k : ℚ) / 30) : scaledValue percent = some (k : ℚ) := by
  interval_cases k
  · exact (scaledValue_zero percent (by rw [h]; norm_num)).trans (by norm_num)
  · exact (scaledValue_eval percent (-5) (-1) 4803839602528529 9007199254740992
      (by rw [h]; norm_num) (by rw [h]; norm_num) (by decide) (by rw [h]; rw [abs_lt]; norm_num)
      (by norm_num) (by norm_num) (by decide) (by rw [abs_lt]; norm_num)).trans
      (by norm_num)
  · exact (scaledValue_eval percent (-4) 0 4803839602528529 9007199254740992
      (by rw [h]; norm_num) (by rw [h]; norm_num) (by decide) (by rw [h]; rw [abs_lt]; norm_num)
      (by norm_num) (by norm_num) (by decide) (by rw [abs_lt]; norm_num)).trans
      (by norm_num)
  · exact (scaledValue_eval percent (-4) 1 7205759403792794 6755399441055744
      (by rw [h]; norm_num) (by rw [h]; norm_num) (by decide) (by rw [h]; rw [abs_lt]; norm_num)
      (by norm_num) (by norm_num) (by decide) (by rw [abs_lt]; norm_num)).trans
      (by norm_num)
  · exact (scaledValue_eval percent (-3) 1 4803839602528529 9007199254740992
      (by rw [h]; norm_num) (by rw [h]; norm_num) (by decide) (by rw [h]; rw [abs_lt]; norm_num)
      (by norm_num) (by norm_num) (by decide) (by rw [abs_lt]; norm_num)).trans
      (by norm_num)
  · exact (scaledValue_eval percent (-3) 2 6004799503160661 5629499534213120
      (by rw [h]; norm_num) (by rw [h]; norm_num) (by decide) (by rw [h]; rw [abs_lt]; norm_num)
      (by norm_num) (by norm_num) (by decide) (by rw [abs_lt]; norm_num)).trans
      (by norm_num)
  · exact (scaledValue_eval percent (-3) 2 7205759403792794 6755399441055744
      (by rw [h]; norm_num) (by rw [h]; norm_num) (by decide) (by rw [h]; rw [abs_lt]; norm_num)
      (by norm_num) (by norm_num) (by decide) (by rw [abs_lt]; norm_num)).trans
      (by norm_num)
  · exact (scaledValue_eval percent (-3) 2 8406719304424926 7881299347898368
      (by rw [h]; norm_num) (by rw [h]; norm_num) (by decide) (by rw [h]; rw [abs_lt]; norm_num)
      (by norm_num) (by norm_num) (by decide) (by rw [abs_lt]; norm_num)).trans
      (by norm_num)
  · exact (scaledValue_eval percent (-2) 2 4803839602528529 9007199254740992
      (by rw [h]; norm_num) (by rw [h]; norm_num) (by decide) (by rw [h]; rw [abs_lt]; norm_num)
      (by norm_num) (by norm_num) (by decide) (by rw [abs_lt]; norm_num)).trans
      (by norm_num)
  · exact (scaledValue_eval percent (-2) 3 5404319552844595 5066549580791808
      (by rw [h]; norm_num) (by rw [h]; norm_num) (by decide) (by rw [h]; rw [abs_lt]; norm_num)
      (by norm_num) (by norm_num) (by decide) (by rw [abs_lt]; norm_num)).trans
      (by norm_num)
  · exact (scaledValue_eval percent (-2) 3 6004799503160661 5629499534213120
      (by rw [h]; norm_num) (by rw [h]; norm_num) (by decide) (by rw [h]; rw [abs_lt]; norm_num)
      (by norm_num) (by norm_num) (by decide) (by rw [abs_lt]; norm_num)).trans
      (by norm_num)
  · exact (scaledValue_eval percent (-2) 3 6605279453476727 6192449487634432
      (by rw [h]; norm_num) (by rw [h]; norm_num) (by decide) (by rw [h]; rw [abs_lt]; norm_num)
      (by norm_num) (by norm_num) (by decide) (by rw [abs_lt]; norm_num)).trans
      (by norm_num)
  · exact (scaledValue_eval percent (-2) 3 7205759403792794 6755399441055744
      (by rw [h]; norm_num) (by rw [h]; norm_num) (by decide) (by rw [h]; rw [abs_lt]; norm_num)
      (by norm_num) (by norm_num) (by decide) (by rw [abs_lt]; norm_num)).trans
      (by norm_num)
  · exact (scaledValue_eval percent (-2) 3 7806239354108860 7318349394477056
      (by rw [h]; norm_num) (by rw [h]; norm_num) (by decide) (by rw [h]; rw [abs_lt]; norm_num)
      (by norm_num) (by norm_num) (by decide) (by rw [abs_lt]; norm_num)).trans
      (by norm_num)
  · exact (scaledValue_eval percent (-2) 3 8406719304424926 7881299347898368
      (by rw [h]; norm_num) (by rw [h]; norm_num) (by decide) (by rw [h]; rw [abs_lt]; norm_num)
      (by norm_num) (by norm_num) (by decide) (by rw [abs_lt]; norm_num)).trans
      (by norm_num)
  · exact (scaledValue_eval percent (-1) 3 4503599627370496 8444249301319680
      (by rw [h]; norm_num) (by rw [h]; norm_num) (by decide) (by rw [h]; rw [abs_lt]; norm_num)
      (by norm_num) (by norm_num) (by decide) (by rw [abs_lt]; norm_num)).trans
      (by norm_num)
  · exact (scaledValue_eval percent (-1) 3 4803839602528529 9007199254740992
      (by rw [h]; norm_num) (by rw [h]; norm_num) (by decide) (by rw [h]; rw [abs_lt]; norm_num)
      (by norm_num) (by norm_num) (by decide) (by rw [abs_lt]; norm_num)).trans
      (by norm_num)
  · exact (scaledValue_eval percent (-1) 4 5104079577686562 4785074604081152
      (by rw [h]; norm_num) (by rw [h]; norm_num) (by decide) (by rw [h]; rw [abs_lt]; norm_num)
      (by norm_num) (by norm_num) (by decide) (by rw [abs_lt]; norm_num)).trans
      (by norm_num)
  · exact (scaledValue_eval percent (-1) 4 5404319552844595 5066549580791808
      (by rw [h]; norm_num) (by rw [h]; norm_num) (by decide) (by rw [h]; rw [abs_lt]; norm_num)
      (by norm_num) (by norm_num) (by decide) (by rw [abs_lt]; norm_num)).trans
      (by norm_num)
  · exact (scaledValue_eval percent (-1) 4 5704559528002628 5348024557502464
      (by rw [h]; norm_num) (by rw [h]; norm_num) (by decide) (by rw [h]; rw [abs_lt]; norm_num)
      (by norm_num) (by norm_num) (by decide) (by rw [abs_lt]; norm_num)).trans
      (by norm_num)
  · exact (scaledValue_eval percent (-1) 4 6004799503160661 5629499534213120
      (by rw [h]; norm_num) (by rw [h]; norm_num) (by decide) (by rw [h]; rw [abs_lt]; norm_num)
      (by norm_num) (by norm_num) (by decide) (by rw [abs_lt]; norm_num)).trans
      (by norm_num)
  · exact (scaledValue_eval percent (-1) 4 6305039478318694 5910974510923776
      (by rw [h]; norm_num) (by rw [h]; norm_num) (by decide) (by rw [h]; rw [abs_lt]; norm_num)
      (by norm_num) (by norm_num) (by decide) (by rw [abs_lt]; norm_num)).trans
      (by norm_num)
  · exact (scaledValue_eval percent (-1) 4 6605279453476727 6192449487634432
      (by rw [h]; norm_num) (by rw [h]; norm_num) (by decide) (by rw [h]; rw [abs_lt]; norm_num)
      (by norm_num) (by norm_num) (by decide) (by rw [abs_lt]; norm_num)).trans
      (by norm_num)
  · exact (scaledValue_eval percent (-1) 4 6905519428634761 6473924464345088
      (by rw [h]; norm_num) (by rw [h]; norm_num) (by decide) (by rw [h]; rw [abs_lt]; norm_num)
      (by norm_num) (by norm_num) (by decide) (by rw [abs_lt]; norm_num)).trans
      (by norm_num)
  · exact (scaledValue_eval percent (-1) 4 7205759403792794 6755399441055744
      (by rw [h]; norm_num) (by rw [h]; norm_num) (by decide) (by rw [h]; rw [abs_lt]; norm_num)
      (by norm_num) (by norm_num) (by decide) (by rw [abs_lt]; norm_num)).trans
      (by norm_num)
  · exact (scaledValue_eval percent (-1) 4 7505999378950827 7036874417766400
      (by rw [h]; norm_num) (by rw [h]; norm_num) (by decide) (by rw [h]; rw [abs_lt]; norm_num)
      (by norm_num) (by norm_num) (by decide) (by rw [abs_lt]; norm_num)).trans
      (by norm_num)
  · exact (scaledValue_eval percent (-1) 4 7806239354108860 7318349394477056
      (by rw [h]; norm_num) (by rw [h]; norm_num) (by decide) (by rw [h]; rw [abs_lt]; norm_num)
      (by norm_num) (by norm_num) (by decide) (by rw [abs_lt]; norm_num)).trans
      (by norm_num)
  · exact (scaledValue_eval percent (-1) 4 8106479329266893 7599824371187712
      (by rw [h]; norm_num) (by rw [h]; norm_num) (by decide) (by rw [h]; rw [abs_lt]; norm_num)
      (by norm_num) (by norm_num) (by decide) (by rw [abs_lt]; norm_num)).trans
      (by norm_num)
  · exact (scaledValue_eval percent (-1) 4 8406719304424926 7881299347898368
      (by rw [h]; norm_num) (by rw [h]; norm_num) (by decide) (by rw [h]; rw [abs_lt]; norm_num)
      (by norm_num) (by norm_num) (by decide) (by rw [abs_lt]; norm_num)).trans
      (by norm_num)
  · exact (scaledValue_eval percent (-1) 4 8706959279582959 8162774324609024
      (by rw [h]; norm_num) (by rw [h]; norm_num) (by decide) (by rw [h]; rw [abs_lt]; norm_num)
      (by norm_num) (by norm_num) (by decide) (by rw [abs_lt]; norm_num)).trans
      (by norm_num)
  · exact (scaledValue_eval percent 0 4 4503599627370496 8444249301319680
      (by rw [h]; norm_num) (by rw [h]; norm_num) (by decide) (by rw [h]; rw [abs_lt]; norm_num)
      (by norm_num) (by norm_num) (by decide) (by rw [abs_lt]; norm_num)).trans
      (by norm_num)

/-- The dashboard's CPU figure: the scaled value of 45.5 is the double next to 13.65. -/
theorem scaledValue_cpu :
    scaledValue (455 / 10) = some (7684266864200909 / 562949953421312) :=
  (scaledValue_eval (455 / 10) (-2) 3 8196551321814303 7684266864200909
    (by norm_num) (by norm_num) (by decide) (by rw [abs_lt]; norm_num)
    (by norm_num) (by norm_num) (by decide) (by rw [abs_lt]; norm_num)).trans
    (by norm_num)

/-- At the double just below 30 the rounded product is 9, where the exact product would
be just below it. -/
theorem scaledValue_below_thirty :
    scaledValue (8444249301319679 / 281474976710656) = some 9 ∧
      (8444249301319679 / 281474976710656 : ℚ) / 100 * 30 < 9 :=
  ⟨(scaledValue_eval (8444249301319679 / 281474976710656) (-2) 3 5404319552844595 5066549580791808
    (by norm_num) (by norm_num) (by decide) (by rw [abs_lt]; norm_num)
    (by norm_num) (by norm_num) (by decide) (by rw [abs_lt]; norm_num)).trans
    (by norm_num), by norm_num⟩

/-! ### The filled count -/

/-- The filled count of `progressBar`: the scaled double value with its fraction cut
off, held between 0 and 30. -/
theorem filledBars_eq (percent v : ℚ) (hv : scaledValue percent = some v)
    (hrange : -2147483649 < v ∧ v < 2147483648) :
    filledBars percent = some ((min 30 ⌊max 0 v⌋₊ : Nat) : Int) := by
  by_cases h0 : 0 ≤ v
  · have hcast : ((⌊v⌋₊ : Nat) : Int) = ⌊v⌋ := Int.natCast_floor_eq_floor h0
    have hnn : 0 ≤ ⌊v⌋ := Int.floor_nonneg.mpr h0
    unfold filledBars
    rw [hv, Option.some_bind, static_cast_int_of_nonneg _ h0 hrange.2, max_eq_right h0]
    simp only [Option.map_some', totalBars, Option.some.injEq]
    rw [Nat.cast_min, hcast]
    simp only [not_lt.mpr hnn, if_false]
    split
    · rename_i h
      rw [min_eq_left (by exact_mod_cast h.le)]
      rfl
    · rename_i h
      rw [min_eq_right (by exact_mod_cast not_lt.mp h)]
  · have hneg : v < 0 := not_le.mp h0
    have hceil : ⌈v⌉ ≤ 0 := Int.ceil_le.mpr (by exact_mod_cast hneg.le)
    unfold filledBars
    rw [hv, Option.some_bind, static_cast_int_of_neg _ hneg hrange.1, max_eq_left hneg.le]
    simp only [Option.map_some', totalBars, Option.some.injEq, Nat.floor_zero]
    have hz : (if ⌈v⌉ < 0 then (0 : Int) else ⌈v⌉) = 0 := by
      split
      · rfl
      · omega
    rw [hz]
    simp

theorem progressBar_of_filled (percent : ℚ) (k : Nat) (hk : k ≤ 30)
    (h : filledBars percent = some (k : Int)) :
    progressBar percent
      = some (['['] ++ List.replicate k '#' ++ List.replicate (30 - k) '-' ++ [']']) := by
  have h1 : ((totalBars - (k : Int)).toNat) = 30 - k := by
    unfold totalBars
    omega
  simp only [progressBar, h, Option.map_some', Int.toNat_ofNat, h1]

/-- Claim C6, as the code has it. With `v` the double value the code computes for
`percent / 100 * 30` (quotient and product each rounded to the nearest double), the
number of filled slots is `v` with its fractional part discarded (the conversion to `int`
truncates, it does not round), held between 0 and 30; the bar is that many `#` followed
by `-` up to 30 slots. This holds whenever `v` fits an `int`. -/
theorem progressBar_filled_truncates (percent v : ℚ)
    (hv : scaledValue percent = some v)
    (hrange : -2147483649 < v ∧ v < 2147483648) :
    filledBars percent = some ((min 30 ⌊max 0 v⌋₊ : Nat) : Int) ∧
      progressBar percent
        = some (['['] ++ List.replicate (min 30 ⌊max 0 v⌋₊) '#'
            ++ List.replicate (30 - min 30 ⌊max 0 v⌋₊) '-' ++ [']']) :=
  ⟨filledBars_eq percent v hv hrange,
    progressBar_of_filled percent _ (min_le_left _ _) (filledBars_eq percent v hv hrange)⟩

theorem progressBar_filled_truncates_witness :
    filledBars (455 / 10)
        = some ((min 30 ⌊max 0 (7684266864200909 / 562949953421312 : ℚ)⌋₊ : Nat) : Int) ∧
      progressBar (455 / 10)
        = some (['['] ++
            List.replicate (min 30 ⌊max 0 (7684266864200909 / 562949953421312 : ℚ)⌋₊) '#'
            ++ List.replicate
                (30 - min 30 ⌊max 0 (7684266864200909 / 562949953421312 : ℚ)⌋₊) '-'
            ++ [']']) :=
  progressBar_filled_truncates (455 / 10) (7684266864200909 / 562949953421312)
    scaledValue_cpu (by norm_num)

theorem floor_scaled_cpu :
    ⌊max 0 (7684266864200909 / 562949953421312 : ℚ)⌋₊ = 13 := by
  rw [Nat.floor_eq_iff (le_max_left _ _)]
  norm_num

/-- Claim C6 fails at the CPU figure the dashboard itself displays: for 45.5 percent the
scaled value is 13.65, the bar has 13 filled slots, and rounding would give 14. -/
theorem progressBar_rounding_counterexample :
    filledBars (455 / 10) = some 13 ∧
      progressBar (455 / 10) = some "[#############-----------------]".toList ∧
      max 0 (min 30 (round ((455 / 10 : ℚ) / 100 * 30))) = 14 ∧
      filledBars (455 / 10) ≠ some (max 0 (min 30 (round ((455 / 10 : ℚ) / 100 * 30)))) := by
  have hf : filledBars (455 / 10) = some ((13 : Nat) : Int) := by
    have h := filledBars_eq (455 / 10) _ scaledValue_cpu (by norm_num)
    rw [floor_scaled_cpu] at h
    exact h
  have hr : round ((455 / 10 : ℚ) / 100 * 30) = 14 := by
    rw [round_eq, Int.floor_eq_iff]
    norm_num
  refine ⟨hf, ?_, ?_, ?_⟩
  · rw [progressBar_of_filled (455 / 10) 13 (by decide) hf]
    decide
  · rw [hr]
    decide
  · rw [hr, hf]
    decide

/-! ## The argument of `kill` and `info` -/

theorem isdigit_facts (c : Char) (h : isdigit c = true) :
    isspace c = false ∧ c ≠ '-' ∧ c ≠ '+' := by
  refine ⟨?_, ?_, ?_⟩
  · by_contra hs
    have := (isspace_facts c (by simpa using hs)).2.1
    rw [h] at this
    exact Bool.noConfusion this
  · rintro rfl
    exact absurd h (by decide)
  · rintro rfl
    exact absurd h (by decide)

theorem digitsToInt_eq_some (negative : Bool) (ds : Str) (pid : Int) :
    digitsToInt negative ds = some pid ↔
      ds ≠ [] ∧ pid = (if negative then -(digitsValue ds : Int) else (digitsValue ds : Int)) ∧
        INT_MIN ≤ pid ∧ pid ≤ INT_MAX := by
  unfold digitsToInt
  by_cases hds : ds = []
  · simp [hds]
  · have key : ∀ v : Int, (if INT_MIN ≤ v ∧ v ≤ INT_MAX then some v else none) = some pid ↔
        pid = v ∧ INT_MIN ≤ pid ∧ pid ≤ INT_MAX := by
      intro v
      by_cases hr : INT_MIN ≤ v ∧ v ≤ INT_MAX
      · rw [if_pos hr]
        constructor
        · intro h
          have hv := Option.some.inj h
          subst hv
          exact ⟨rfl, hr⟩
        · rintro ⟨hv, -⟩
          rw [hv]
      · rw [if_neg hr]
        constructor
        · intro h
          exact absurd h (by simp)
        · rintro ⟨hv, hr2⟩
          exact absurd (hv ▸ hr2) hr
    simp only [hds, if_false, ne_eq, not_false_eq_true, true_and]
    exact key _

theorem takeWhile_isdigit_run (ds tail : Str) (hds : ∀ c ∈ ds, isdigit c = true)
    (htail : ∀ c, tail.head? = some c → isdigit c = false) :
    (ds ++ tail).takeWhile isdigit = ds := by
  rw [List.takeWhile_append_of_pos hds]
  cases tail with
  | nil => simp
  | cons b tail => simp [List.takeWhile, htail b rfl]

theorem dropWhile_head_not (p : Char → Bool) (l : Str) :
    ∀ c, (l.dropWhile p).head? = some c → p c = false := by
  intro c hc
  have h := List.head?_dropWhile_not p l
  rw [hc] at h
  exact h

/-- The extraction `ss >> pid` succeeds with value `pid` exactly on the texts that begin
with an integer of that value. -/
theorem extractInt_eq_some_iff (arg : Str) (pid : Int) :
    extractInt arg = some pid ↔ startsWithInt arg pid := by
  constructor
  · intro h
    unfold extractInt at h
    have hsplit : arg = arg.takeWhile isspace ++ arg.dropWhile isspace :=
      (List.takeWhile_append_dropWhile isspace arg).symm
    have hws : ∀ c ∈ arg.takeWhile isspace, isspace c = true :=
      fun c hc => List.mem_takeWhile_imp hc
    cases hs : arg.dropWhile isspace with
    | nil =>
      rw [hs] at h
      exact absurd h (by simp [parseSigned])
    | cons c t =>
      rw [hs] at h hsplit
      have ht : t = t.takeWhile isdigit ++ t.dropWhile isdigit :=
        (List.takeWhile_append_dropWhile isdigit t).symm
      have hct : c :: t = (c :: t).takeWhile isdigit ++ (c :: t).dropWhile isdigit :=
        (List.takeWhile_append_dropWhile isdigit (c :: t)).symm
      simp only [parseSigned] at h
      by_cases hm : c = '-'
      · rw [if_pos hm] at h
        obtain ⟨hne, hv, hr⟩ := (digitsToInt_eq_some _ _ _).mp h
        refine ⟨arg.takeWhile isspace, ['-'], t.takeWhile isdigit, t.dropWhile isdigit,
          ?_, hws, Or.inr (Or.inr rfl), hne, fun c hc => List.mem_takeWhile_imp hc,
          dropWhile_head_not isdigit t, by simpa using hv, hr⟩
        rw [List.append_assoc, List.append_assoc, ← ht, ← hm]
        exact hsplit
      · rw [if_neg hm] at h
        by_cases hp : c = '+'
        · rw [if_pos hp] at h
          obtain ⟨hne, hv, hr⟩ := (digitsToInt_eq_some _ _ _).mp h
          refine ⟨arg.takeWhile isspace, ['+'], t.takeWhile isdigit, t.dropWhile isdigit,
            ?_, hws, Or.inr (Or.inl rfl), hne, fun c hc => List.mem_takeWhile_imp hc,
            dropWhile_head_not isdigit t, by simpa using hv, hr⟩
          rw [List.append_assoc, List.append_assoc, ← ht, ← hp]
          exact hsplit
        · rw [if_neg hp] at h
          obtain ⟨hne, hv, hr⟩ := (digitsToInt_eq_some _ _ _).mp h
          refine ⟨arg.takeWhile isspace, [], (c :: t).takeWhile isdigit,
            (c :: t).dropWhile isdigit, ?_, hws, Or.inl rfl, hne,
            fun c hc => List.mem_takeWhile_imp hc, dropWhile_head_not isdigit (c :: t),
            by simpa using hv, hr⟩
          rw [List.append_nil, List.append_assoc, ← hct]
          exact hsplit
  · rintro ⟨ws, sign, ds, tail, harg, hws, hsign, hne, hds, htail, hv, hr⟩
    obtain ⟨d, ds', hd⟩ := List.exists_cons_of_ne_nil hne
    have hdd : isdigit d = true := hds d (by simp [hd])
    have hrun := takeWhile_isdigit_run ds tail hds htail
    have hskip : extractInt arg = parseSigned (sign ++ ds ++ tail) := by
      unfold extractInt
      rw [harg, List.append_assoc, List.append_assoc, List.dropWhile_append_of_pos hws,
        ← List.append_assoc]
      rcases hsign with h | h | h <;> subst h
      · rw [hd]
        simp [List.dropWhile, (isdigit_facts d hdd).1]
      · simp [List.dropWhile, isspace]
      · simp [List.dropWhile, isspace]
    rw [hskip]
    rcases hsign with h | h | h <;> subst h
    · have h1 : [] ++ ds ++ tail = d :: (ds' ++ tail) := by simp [hd]
      rw [h1, parseSigned, if_neg (isdigit_facts d hdd).2.1, if_neg (isdigit_facts d hdd).2.2,
        ← List.cons_append, ← hd, hrun]
      exact (digitsToInt_eq_some _ _ _).mpr ⟨hne, by simpa using hv, hr⟩
    · have h1 : ['+'] ++ ds ++ tail = '+' :: (ds ++ tail) := by simp
      rw [h1, parseSigned, if_neg (by decide), if_pos rfl, hrun]
      exact (digitsToInt_eq_some _ _ _).mpr ⟨hne, by simpa using hv, hr⟩
    · have h1 : ['-'] ++ ds ++ tail = '-' :: (ds ++ tail) := by simp
      rw [h1, parseSigned, if_pos rfl, hrun]
      exact (digitsToInt_eq_some _ _ _).mpr ⟨hne, by simpa using hv, hr⟩


/-- Claim C7, as the code has it. For a line made of a `kill` or `info` token (any letter
case) and the text after it, the line is accepted as `kill pid` / `info pid` exactly
when that text begins, after optional whitespace, with an optionally signed decimal
integer `pid` that fits an `int`; whatever follows the digits is not looked at. The
result is the usage message exactly when the text does not begin with such an integer. -/
theorem kill_info_argument (w arg : Str)
    (hw : lowerStr w = "kill".toList ∨ lowerStr w = "info".toList)
    (harg : ∀ c, arg.head? = some c → isspace c = true) :
    (∀ pid, parseLine (w ++ arg)
          = (if lowerStr w = "kill".toList then Command.kill pid else Command.info pid)
        ↔ startsWithInt arg pid) ∧
      (parseLine (w ++ arg)
          = Command.malformed (if lowerStr w = "kill".toList then usageKill else usageInfo)
        ↔ ¬ ∃ pid, startsWithInt arg pid) := by
  have hparse := parseLine_word w arg _ hw rfl harg
  have hiff := extractInt_eq_some_iff arg
  cases hx : extractInt arg with
  | none =>
    have hnone : ∀ pid, ¬ startsWithInt arg pid := by
      intro pid hs
      have := (hiff pid).mpr hs
      rw [hx] at this
      exact Option.noConfusion this
    rw [hx] at hparse
    rw [hparse]
    constructor
    · intro pid
      constructor
      · intro h
        split at h <;> exact Command.noConfusion h
      · intro h
        exact absurd h (hnone pid)
    · constructor
      · rintro - ⟨pid, hs⟩
        exact hnone pid hs
      · intro _
        split <;> rfl
  | some p =>
    have hp : startsWithInt arg p := (hiff p).mp hx
    rw [hx] at hparse
    rw [hparse]
    constructor
    · intro pid
      constructor
      · intro h
        have hpid : p = pid := by
          split at h
          · exact Command.kill.inj h
          · exact Command.info.inj h
        rw [← hpid]
        exact hp
      · intro h
        have h2 := (hiff pid).mpr h
        rw [hx] at h2
        rw [Option.some.inj h2]
    · constructor
      · intro h
        split at h <;> exact Command.noConfusion h
      · intro h
        exact absurd ⟨p, hp⟩ h

theorem kill_info_argument_witness :
    (∀ pid, parseLine ("KILL".toList ++ " 42 extra".toList)
          = (if lowerStr "KILL".toList = "kill".toList then Command.kill pid
              else Command.info pid)
        ↔ startsWithInt " 42 extra".toList pid) ∧
      (parseLine ("KILL".toList ++ " 42 extra".toList)
          = Command.malformed
              (if lowerStr "KILL".toList = "kill".toList then usageKill else usageInfo)
        ↔ ¬ ∃ pid, startsWithInt " 42 extra".toList pid) :=
  kill_info_argument "KILL".toList " 42 extra".toList (by decide) (by decide)

/-- Claim C7 fails on text after the integer: `kill 42 extra`, `kill 42abc` and
`info 42 extra` are accepted with pid 42 instead of getting the usage message. -/
theorem trailing_text_accepted :
    parseLine "kill 42 extra".toList = Command.kill 42 ∧
      parseLine "kill 42abc".toList = Command.kill 42 ∧
      parseLine "info 42 extra".toList = Command.info 42 ∧
      parseLine "kill 42 extra".toList ≠ Command.malformed usageKill ∧
      parseLine "kill 42abc".toList ≠ Command.malformed usageKill := by
  decide

theorem parseLine_malformed_usage (line u : Str) (h : parseLine line = Command.malformed u) :
    u = usageKill ∨ u = usageInfo := by
  unfold parseLine at h
  simp only at h
  split at h
  · exact Command.noConfusion h
  · split at h
    · exact Command.noConfusion h
    · split at h
      · split at h
        · exact Command.noConfusion h
        · exact Or.inl (Command.malformed.inj h).symm
      · split at h
        · split at h
          · exact Command.noConfusion h
          · exact Or.inr (Command.malformed.inj h).symm
        · exact Command.noConfusion h

/-- Claim C8. A line that is malformed (a `kill` or `info` without a readable pid) or
unknown prints a message with non-empty text, leaves the globals as they were, so the
run flag stays set, and the listener goes on with the next line. -/
theorem bad_line_absorbed (s : State) (line : Str) (rest : List Str)
    (hrun : s.running = true)
    (hbad : (∃ u, parseLine line = Command.malformed u) ∨
      (∃ t, parseLine line = Command.unknown t)) :
    (∃ text, text ≠ [] ∧ (listenerIteration s (some line)).output = YELLOW ++ text ++ RESET) ∧
      (listenerIteration s (some line)).output ≠ [] ∧
      (listenerIteration s (some line)).state = s ∧
      (listenerIteration s (some line)).state.running = true ∧
      (listenerIteration s (some line)).continues = true ∧
      inputListener s (line :: rest)
        = ((inputListener s rest).1,
            (listenerIteration s (some line)).output ++ (inputListener s rest).2) := by
  have hloop : ∀ o : Str,
      listenerIteration s (some line) = { state := s, output := o, continues := true } →
      inputListener s (line :: rest)
        = ((inputListener s rest).1,
            (listenerIteration s (some line)).output ++ (inputListener s rest).2) := by
    intro o hr
    simp only [inputListener, hrun, if_true, hr]
  rcases hbad with ⟨u, hu⟩ | ⟨t, ht⟩
  · have hne : u ≠ [] := by
      rcases parseLine_malformed_usage line u hu with h | h <;> subst h <;> decide
    have hstep : listenerIteration s (some line)
        = { state := s, output := usageMsg u, continues := true } := by
      simp only [listenerIteration, hu, execute]
    refine ⟨⟨u, hne, by rw [hstep]; simp [usageMsg]⟩, ?_, by rw [hstep], by rw [hstep]; exact hrun,
      by rw [hstep], hloop _ hstep⟩
    rw [hstep]
    simp [usageMsg, YELLOW]
  · have hstep : listenerIteration s (some line)
        = { state := s, output := unknownMsg t, continues := true } := by
      simp only [listenerIteration, ht, execute]
    refine ⟨⟨"Unknown command: \x27".toList ++ t ++
        "\x27. Available: stop, kill <pid>, info <pid>\n".toList, by simp, ?_⟩, ?_, by rw [hstep],
      by rw [hstep]; exact hrun, by rw [hstep], hloop _ hstep⟩
    · rw [hstep]
      simp [unknownMsg]
    · rw [hstep]
      simp [unknownMsg, YELLOW]

theorem bad_line_absorbed_witness :
    (∃ text, text ≠ [] ∧
        (listenerIteration seeded (some "kill abc".toList)).output = YELLOW ++ text ++ RESET) ∧
      (listenerIteration seeded (some "kill abc".toList)).output ≠ [] ∧
      (listenerIteration seeded (some "kill abc".toList)).state = seeded ∧
      (listenerIteration seeded (some "kill abc".toList)).state.running = true ∧
      (listenerIteration seeded (some "kill abc".toList)).continues = true ∧
      inputListener seeded ("kill abc".toList :: ["info 1000".toList])
        = ((inputListener seeded ["info 1000".toList]).1,
            (listenerIteration seeded (some "kill abc".toList)).output
              ++ (inputListener seeded ["info 1000".toList]).2) :=
  bad_line_absorbed seeded "kill abc".toList ["info 1000".toList] (by decide)
    (Or.inl ⟨usageKill, by decide⟩)

/-- Claim C9. End of input and a `stop` line act alike: from every state each clears the
run flag, keeps the registry, prints nothing and ends the listener loop, whatever input
would have followed the `stop` line. -/
theorem eof_same_as_stop (s : State) (rest : List Str) :
    listenerIteration s none = listenerIteration s (some "stop".toList) ∧
      listenerIteration s none
        = { state := { running := false, globalProcesses := s.globalProcesses }
            output := []
            continues := false } ∧
      inputListener s [] = inputListener s ("stop".toList :: rest) ∧
      (inputListener s []).1.running = false ∧
      (inputListener s []).1.globalProcesses = s.globalProcesses ∧
      (inputListener s []).2 = [] := by
  have hstop : parseLine "stop".toList = Command.stop := by decide
  have hline : listenerIteration s (some "stop".toList)
      = { state := { running := false, globalProcesses := s.globalProcesses }
          output := []
          continues := false } := by
    simp only [listenerIteration, hstop, execute]
  have heof : listenerIteration s none
      = { state := { running := false, globalProcesses := s.globalProcesses }
          output := []
          continues := false } := rfl
  refine ⟨by rw [hline, heof], heof, ?_, ?_, ?_, ?_⟩ <;>
    cases hr : s.running <;>
    simp only [inputListener, hline, heof, hr, if_true, if_false, Bool.false_eq_true]


/-! ## The seeded scenario -/

/-- A whole number is printed by `fixed << setprecision(2)` with two zero decimals. -/
theorem fixed2_natCast (n : Nat) :
    fixed2 (n : ℚ) = Nat.toDigits 10 n ++ ['.', '0', '0'] := by
  have habs : |(n : ℚ)| * 100 = ((n * 100 : Nat) : ℚ) := by
    rw [abs_of_nonneg (Nat.cast_nonneg n)]
    push_cast
    rfl
  have hround : roundHalfEven ((n * 100 : Nat) : ℚ) = n * 100 := by
    simp only [roundHalfEven, Nat.floor_natCast, sub_self]
    norm_num
  have hneg : ¬ ((n : ℚ) < 0) := not_lt.mpr (Nat.cast_nonneg n)
  simp only [fixed2, habs, hround, hneg, if_false, Nat.mul_div_cancel n (by decide : 0 < 100),
    Nat.mul_mod_left, twoDigits]
  have h0 : Nat.toDigits 10 (0 / 10) ++ Nat.toDigits 10 (0 % 10) = ['0', '0'] := by decide
  rw [h0]
  simp

theorem sampleEntry_four :
    sampleEntry 4
      = { pid := 1004, name := "Process_5".toList, cpuUsage := ((90 : Nat) : ℚ),
          memUsage := ((118 : Nat) : ℚ) } := by
  have hname : "Process_".toList ++ to_string (((4 : Nat) : Int) + 1) = "Process_5".toList := by
    decide
  simp only [sampleEntry, hname]
  norm_num

/-- Claim C10. On the seeded registry, `info 1004` prints the record of pid 1004 with
`CPU% 90.00` and `MEM% 118.00` and changes nothing; `kill 1001` reports the termination,
the following `info 1001` reports not found, and the registry, five entries before, then
holds four. -/
theorem seeded_scenario :
    (listenerIteration seeded (some "info 1004".toList)).output
        = CYAN ++ ("\nProcess Info:\n PID   : 1004\n Name  : Process_5\n".toList ++
            " CPU%  : 90.00%\n MEM%  : 118.00%\n".toList) ++ RESET ∧
      (listenerIteration seeded (some "info 1004".toList)).state = seeded ∧
      seeded.globalProcesses.length = 5 ∧
      (listenerIteration seeded (some "kill 1001".toList)).output = terminatedMsg 1001 ∧
      (listenerIteration (listenerIteration seeded (some "kill 1001".toList)).state
        (some "info 1001".toList)).output = notFoundMsg 1001 ∧
      (inputListener seeded
        ["info 1004".toList, "kill 1001".toList, "info 1001".toList]).1.globalProcesses.length
        = 4 ∧
      pids (inputListener seeded
        ["info 1004".toList, "kill 1001".toList, "info 1001".toList]).1.globalProcesses
        = [1000, 1002, 1003, 1004] := by
  have hreg : seeded.globalProcesses
      = [sampleEntry 0, sampleEntry 1, sampleEntry 2, sampleEntry 3, sampleEntry 4] := rfl
  have hpid : ∀ i : Nat, (sampleEntry i).pid = 1000 + (i : Int) := fun _ => rfl
  have hinfo : parseLine "info 1004".toList = Command.info 1004 := by decide
  have hkill : parseLine "kill 1001".toList = Command.kill 1001 := by decide
  have hinfo1 : parseLine "info 1001".toList = Command.info 1001 := by decide
  have hloop : infoLoop 1004 seeded.globalProcesses = (infoRecord (sampleEntry 4), true) := by
    rw [hreg]
    simp [infoLoop, hpid]
  have herase : eraseLoop 1001 seeded.globalProcesses
      = ([sampleEntry 0, sampleEntry 2, sampleEntry 3, sampleEntry 4], true) := by
    rw [hreg]
    simp [eraseLoop, hpid]
  have hloop1 : infoLoop 1001 [sampleEntry 0, sampleEntry 2, sampleEntry 3, sampleEntry 4]
      = ([], false) := by
    simp [infoLoop, hpid]
  have hrecord : infoRecord (sampleEntry 4)
      = CYAN ++ ("\nProcess Info:\n PID   : 1004\n Name  : Process_5\n".toList ++
            " CPU%  : 90.00%\n MEM%  : 118.00%\n".toList) ++ RESET := by
    rw [sampleEntry_four]
    simp only [infoRecord, fixed2_natCast]
    decide
  have hrun : seeded.running = true := rfl
  have hstep1 : listenerIteration seeded (some "info 1004".toList)
      = { state := seeded, output := infoRecord (sampleEntry 4), continues := true } := by
    simp only [listenerIteration, hinfo, execute, hloop, if_true]
  have hstep2 : listenerIteration seeded (some "kill 1001".toList)
      = { state := { running := true, globalProcesses :=
            [sampleEntry 0, sampleEntry 2, sampleEntry 3, sampleEntry 4] }
          output := terminatedMsg 1001, continues := true } := by
    simp only [listenerIteration, hkill, execute, herase, if_true, hrun]
  have hstep3 : listenerIteration { running := true, globalProcesses :=
        [sampleEntry 0, sampleEntry 2, sampleEntry 3, sampleEntry 4] } (some "info 1001".toList)
      = { state := { running := true, globalProcesses :=
            [sampleEntry 0, sampleEntry 2, sampleEntry 3, sampleEntry 4] }
          output := notFoundMsg 1001, continues := true } := by
    simp only [listenerIteration, hinfo1, execute, hloop1]
    simp
  have hfinal : (inputListener seeded
      ["info 1004".toList, "kill 1001".toList, "info 1001".toList]).1
      = { running := false, globalProcesses :=
            [sampleEntry 0, sampleEntry 2, sampleEntry 3, sampleEntry 4] } := by
    have heof : ∀ s : State, listenerIteration s none
        = { state := { running := false, globalProcesses := s.globalProcesses }
            output := [], continues := false } := fun _ => rfl
    simp only [inputListener, hrun, if_true, hstep1, hstep2, hstep3, heof]
  refine ⟨?_, ?_, ?_, ?_, ?_, ?_, ?_⟩
  · rw [hstep1, hrecord]
  · rw [hstep1]
  · rw [hreg]
    rfl
  · rw [hstep2]
  · rw [hstep2, hstep3]
  · rw [hfinal]
    rfl
  · rw [hfinal]
    rfl

/-! ## More on `progressBar` -/

/-- Claim C11. When `percent / 100 * 30` is a whole number `k` between 0 and 30, the bar
has exactly `k` filled slots; in particular 0 percent fills none, 50 percent fills 15
and 100 percent fills all 30. -/
theorem progressBar_whole_slots (percent : ℚ) (k : Nat) (hk : k ≤ 30)
    (hwhole : percent / 100 * 30 = (k : ℚ)) :
    filledBars percent = some (k : Int) ∧
      progressBar percent
        = some (['['] ++ List.replicate k '#' ++ List.replicate (30 - k) '-' ++ [']']) ∧
      filledBars 0 = some 0 ∧ filledBars 50 = some 15 ∧ filledBars 100 = some 30 := by
  have whole : ∀ (q : ℚ) (n : Nat), n ≤ 30 → q / 100 * 30 = (n : ℚ) →
      filledBars q = some (n : Int) := by
    intro q n hn hq
    have hn' : (n : ℚ) ≤ 30 := by exact_mod_cast hn
    have h0 : (0 : ℚ) ≤ (n : ℚ) := Nat.cast_nonneg n
    have hv : scaledValue q = some (n : ℚ) :=
      scaledValue_whole q n hn (by rw [← hq]; ring)
    have h := filledBars_eq q n hv (by constructor <;> linarith)
    rw [max_eq_right h0, Nat.floor_natCast, min_eq_right hn] at h
    exact h
  have hf := whole percent k hk hwhole
  refine ⟨hf, progressBar_of_filled percent k hk hf, ?_, ?_, ?_⟩
  · exact whole 0 0 (by decide) (by norm_num)
  · exact whole 50 15 (by decide) (by norm_num)
  · exact whole 100 30 (by decide) (by norm_num)

theorem progressBar_whole_slots_witness :
    filledBars 70 = some ((21 : Nat) : Int) ∧
      progressBar 70
        = some (['['] ++ List.replicate 21 '#' ++ List.replicate (30 - 21) '-' ++ [']']) ∧
      filledBars 0 = some 0 ∧ filledBars 50 = some 15 ∧ filledBars 100 = some 30 :=
  progressBar_whole_slots 70 21 (by decide) (by norm_num)

/-- The erase loop removes the first entry with the given pid and nothing else. -/
theorem eraseLoop_first (pid : Int) (l : List ProcessInfo) (h : pid ∈ pids l) :
    ∃ before e after, l = before ++ e :: after ∧ e.pid = pid ∧ pid ∉ pids before ∧
      eraseLoop pid l = (before ++ after, true) := by
  induction l with
  | nil => simp [pids] at h
  | cons q rest ih =>
    by_cases hq : q.pid = pid
    · exact ⟨[], q, rest, rfl, hq, by simp [pids], by simp [eraseLoop, hq]⟩
    · have hrest : pid ∈ pids rest := by
        simp only [pids, List.map_cons, List.mem_cons] at h ⊢
        rcases h with h | h
        · exact absurd h.symm hq
        · exact h
      obtain ⟨before, e, after, hl, he, hb, her⟩ := ih hrest
      refine ⟨q :: before, e, after, by simp [hl], he, ?_, by simp [eraseLoop, hq, her]⟩
      simp only [pids, List.map_cons, List.mem_cons, not_or]
      exact ⟨fun e => hq e.symm, hb⟩

theorem terminatedMsg_ne_notFoundMsg (pid : Int) : terminatedMsg pid ≠ notFoundMsg pid := by
  intro h
  have h3 : (terminatedMsg pid)[3]? = (notFoundMsg pid)[3]? := by rw [h]
  revert h3
  simp [terminatedMsg, notFoundMsg, RED, YELLOW]

/-- Claim C13. In any registry, duplicates allowed, a line that parses as `kill p`
removes exactly the first entry whose pid is `p`: the entries before and after it stay,
unchanged and in order. The removal is reported, by the flag and by the message, exactly
when some entry has pid `p`; otherwise the registry is as before. -/
theorem kill_removes_first (s : State) (p : Int) (killLine : Str)
    (hkill : parseLine killLine = Command.kill p) :
    ((eraseLoop p s.globalProcesses).2 = true ↔ p ∈ pids s.globalProcesses) ∧
      ((listenerIteration s (some killLine)).output = terminatedMsg p
        ↔ p ∈ pids s.globalProcesses) ∧
      ((listenerIteration s (some killLine)).output = notFoundMsg p
        ↔ p ∉ pids s.globalProcesses) ∧
      (p ∈ pids s.globalProcesses →
        ∃ before e after, s.globalProcesses = before ++ e :: after ∧ e.pid = p ∧
          p ∉ pids before ∧
          (listenerIteration s (some killLine)).state.globalProcesses = before ++ after) ∧
      (p ∉ pids s.globalProcesses →
        (listenerIteration s (some killLine)).state.globalProcesses = s.globalProcesses) ∧
      (listenerIteration s (some killLine)).state.running = s.running := by
  have hstep : listenerIteration s (some killLine)
      = { state := { s with globalProcesses := (eraseLoop p s.globalProcesses).1 }
          output := if (eraseLoop p s.globalProcesses).2 then terminatedMsg p
            else notFoundMsg p
          continues := true } := by
    simp only [listenerIteration, hkill, execute]
  rw [hstep]
  by_cases hp : p ∈ pids s.globalProcesses
  · obtain ⟨before, e, after, hl, he, hb, her⟩ := eraseLoop_first p s.globalProcesses hp
    simp only [her, if_true, hp, iff_true, not_true, iff_false, true_and, not_false_eq_true,
      IsEmpty.forall_iff, and_true]
    exact ⟨terminatedMsg_ne_notFoundMsg p, fun _ => ⟨before, e, after, hl, he, hb, rfl⟩⟩
  · have her := eraseLoop_absent p s.globalProcesses hp
    simp only [her, hp, iff_false, Bool.false_eq_true, if_false, not_false_eq_true, iff_true,
      IsEmpty.forall_iff, true_and, forall_true_left, and_true, not_true]
    exact fun h => terminatedMsg_ne_notFoundMsg p h.symm

theorem kill_removes_first_witness :
    ((eraseLoop 1001 seeded.globalProcesses).2 = true ↔ 1001 ∈ pids seeded.globalProcesses) ∧
      ((listenerIteration seeded (some "kill 1001".toList)).output = terminatedMsg 1001
        ↔ 1001 ∈ pids seeded.globalProcesses) ∧
      ((listenerIteration seeded (some "kill 1001".toList)).output = notFoundMsg 1001
        ↔ 1001 ∉ pids seeded.globalProcesses) ∧
      (1001 ∈ pids seeded.globalProcesses →
        ∃ before e after, seeded.globalProcesses = before ++ e :: after ∧ e.pid = 1001 ∧
          1001 ∉ pids before ∧
          (listenerIteration seeded (some "kill 1001".toList)).state.globalProcesses
            = before ++ after) ∧
      (1001 ∉ pids seeded.globalProcesses →
        (listenerIteration seeded (some "kill 1001".toList)).state.globalProcesses
          = seeded.globalProcesses) ∧
      (listenerIteration seeded (some "kill 1001".toList)).state.running = seeded.running :=
  kill_removes_first seeded 1001 "kill 1001".toList (by decide)

/-! ## The two loops together -/

theorem eraseLoop_sublist (pid : Int) (l : List ProcessInfo) :
    (eraseLoop pid l).1.Sublist l := by
  induction l with
  | nil => exact List.Sublist.refl _
  | cons q rest ih =>
    by_cases hq : q.pid = pid
    · simp only [eraseLoop, hq, if_true]
      exact List.sublist_cons_self q rest
    · simp only [eraseLoop, hq, if_false]
      exact List.Sublist.cons₂ q ih

theorem eraseLoop_nodup (pid : Int) (l : List ProcessInfo) (h : (pids l).Nodup) :
    (pids (eraseLoop pid l).1).Nodup :=
  List.Nodup.sublist (List.Sublist.map ProcessInfo.pid (eraseLoop_sublist pid l)) h

theorem sample_pids : pids (getProcessesLoop 5) = [1000, 1001, 1002, 1003, 1004] := by
  decide

theorem execute_registry (s : State) (c : Command) :
    (execute s c).state.globalProcesses = s.globalProcesses ∨
      ∃ pid, (execute s c).state.globalProcesses = (eraseLoop pid s.globalProcesses).1 := by
  cases c with
  | kill pid => exact Or.inr ⟨pid, rfl⟩
  | blank => exact Or.inl rfl
  | stop => exact Or.inl rfl
  | info pid => exact Or.inl rfl
  | malformed u => exact Or.inl rfl
  | unknown t => exact Or.inl rfl

theorem listenerIteration_nodup (s : State) (inp : Option Str)
    (h : (pids s.globalProcesses).Nodup) :
    (pids (listenerIteration s inp).state.globalProcesses).Nodup := by
  cases inp with
  | none => exact h
  | some line =>
    rcases execute_registry s (parseLine line) with h1 | ⟨pid, h1⟩
    · simp only [listenerIteration, h1]
      exact h
    · simp only [listenerIteration, h1]
      exact eraseLoop_nodup pid _ h

theorem renderIteration_registry (s : State) :
    (renderIteration s).state = { running := s.running, globalProcesses := getProcessesLoop 5 } ∧
      (renderIteration s).processes = getProcessesLoop 5 := by
  constructor
  · rfl
  · have hne : (getProcessesLoop 5).isEmpty = false := rfl
    simp [renderIteration, getProcesses, hne]

theorem step_nodup (s : State) (e : Event) (h : (pids s.globalProcesses).Nodup) :
    (pids (step s e).globalProcesses).Nodup := by
  cases e with
  | input line =>
    simp only [step]
    split
    · exact listenerIteration_nodup s line h
    · exact h
  | tick =>
    simp only [step]
    split
    · rw [(renderIteration_registry s).1, sample_pids]
      decide
    · exact h

theorem run_nodup (events : List Event) :
    ∀ s : State, (pids s.globalProcesses).Nodup → (pids (run s events).globalProcesses).Nodup := by
  induction events with
  | nil => exact fun s h => h
  | cons e rest ih =>
    intro s h
    exact ih (step s e) (step_nodup s e h)

/-- Claim C16. In every state reached from program start, or from the seeded registry,
by any sequence of listener lines (kill, info, malformed, unknown, stop, end of input)
and render passes, the pids of the registry are pairwise distinct. -/
theorem unique_pids_invariant (events : List Event) :
    (pids (run initial events).globalProcesses).Nodup ∧
      (pids (run seeded events).globalProcesses).Nodup ∧
      (pids seeded.globalProcesses).Nodup :=
  ⟨run_nodup events initial (by decide), run_nodup events seeded (by decide), by decide⟩

theorem listenerIteration_running (s : State) (inp : Option Str)
    (h : (listenerIteration s inp).state.running = true) : s.running = true := by
  cases inp with
  | none => exact absurd h (by simp [listenerIteration])
  | some line =>
    simp only [listenerIteration] at h
    cases hc : parseLine line with
    | stop =>
      rw [hc] at h
      exact absurd h (by simp [execute])
    | blank => rw [hc] at h; exact h
    | kill pid => rw [hc] at h; exact h
    | info pid => rw [hc] at h; exact h
    | malformed u => rw [hc] at h; exact h
    | unknown t => rw [hc] at h; exact h

theorem step_stopped (s : State) (e : Event) (h : s.running = false) : step s e = s := by
  cases e <;> simp [step, h]

theorem run_stopped (events : List Event) :
    ∀ s : State, s.running = false → run s events = s := by
  induction events with
  | nil => exact fun s _ => rfl
  | cons e rest ih =>
    intro s h
    have hs := step_stopped s e h
    simp only [run, List.foldl_cons, hs]
    exact ih s h

theorem inputListener_stopped (s : State) (lines : List Str) (h : s.running = false) :
    inputListener s lines = (s, []) := by
  cases lines <;> simp [inputListener, h]

/-- Claim C14. The run flag only moves from set to cleared. The body of the listener
loop and the body of the render loop never turn a cleared flag into a set one, so from
a stopped state every sequence of events, and the listener on any input, leaves the
globals as they are; and clearing the flag a second time changes nothing. -/
theorem run_flag_one_way (s : State) (inp : Option Str) (events : List Event)
    (lines : List Str) (hstopped : s.running = false) :
    (listenerIteration s inp).state.running = false ∧
      (renderIteration s).state.running = false ∧
      step s (Event.input inp) = s ∧ step s Event.tick = s ∧
      run s events = s ∧ (run s events).running = false ∧
      inputListener s lines = (s, []) ∧
      (listenerIteration s none).state = s ∧
      (listenerIteration s (some "stop".toList)).state = s := by
  have hstop : parseLine "stop".toList = Command.stop := by decide
  have hself : ({ running := false, globalProcesses := s.globalProcesses } : State) = s := by
    cases s
    simp only at hstopped
    simp [hstopped]
  refine ⟨?_, ?_, step_stopped s _ hstopped, step_stopped s _ hstopped,
    run_stopped events s hstopped, ?_, inputListener_stopped s lines hstopped, ?_, ?_⟩
  · cases hr : (listenerIteration s inp).state.running with
    | false => rfl
    | true =>
      have := listenerIteration_running s inp hr
      rw [hstopped] at this
      exact Bool.noConfusion this
  · rw [(renderIteration_registry s).1]
    exact hstopped
  · rw [run_stopped events s hstopped]
    exact hstopped
  · exact hself
  · simp only [listenerIteration, hstop, execute]
    exact hself

theorem run_flag_one_way_witness :
    (listenerIteration { running := false, globalProcesses := getProcessesLoop 5 }
          (some "kill 1001".toList)).state.running = false ∧
      (renderIteration { running := false, globalProcesses := getProcessesLoop 5 }
          ).state.running = false ∧
      step { running := false, globalProcesses := getProcessesLoop 5 }
          (Event.input (some "kill 1001".toList))
        = { running := false, globalProcesses := getProcessesLoop 5 } ∧
      step { running := false, globalProcesses := getProcessesLoop 5 } Event.tick
        = { running := false, globalProcesses := getProcessesLoop 5 } ∧
      run { running := false, globalProcesses := getProcessesLoop 5 }
          [Event.tick, Event.input none]
        = { running := false, globalProcesses := getProcessesLoop 5 } ∧
      (run { running := false, globalProcesses := getProcessesLoop 5 }
          [Event.tick, Event.input none]).running = false ∧
      inputListener { running := false, globalProcesses := getProcessesLoop 5 }
          ["info 1000".toList]
        = ({ running := false, globalProcesses := getProcessesLoop 5 }, []) ∧
      (listenerIteration { running := false, globalProcesses := getProcessesLoop 5 } none).state
        = { running := false, globalProcesses := getProcessesLoop 5 } ∧
      (listenerIteration { running := false, globalProcesses := getProcessesLoop 5 }
          (some "stop".toList)).state
        = { running := false, globalProcesses := getProcessesLoop 5 } :=
  run_flag_one_way { running := false, globalProcesses := getProcessesLoop 5 }
    (some "kill 1001".toList) [Event.tick, Event.input none] ["info 1000".toList] rfl

/-! ## The sample and the render pass -/

/-- Claim C17. A kill does not outlast the next render pass: from every state, with an
empty registry or not, the pass installs the five-entry sample as the registry and hands
the same five entries to the table; after `kill 1001` and one pass pid 1001 is back. -/
theorem render_pass_restores_sample (s : State) (events : List Event) :
    (renderIteration s).state.globalProcesses = getProcessesLoop 5 ∧
      (renderIteration s).processes = getProcessesLoop 5 ∧
      (renderIteration s).state.running = s.running ∧
      (getProcessesLoop 5).length = 5 ∧
      pids (renderIteration s).state.globalProcesses = [1000, 1001, 1002, 1003, 1004] ∧
      (step (run initial events) Event.tick).globalProcesses
        = (if (run initial events).running then getProcessesLoop 5
            else (run initial events).globalProcesses) ∧
      pids (run seeded [Event.input (some "kill 1001".toList)]).globalProcesses
        = [1000, 1002, 1003, 1004] ∧
      pids (run seeded [Event.input (some "kill 1001".toList), Event.tick]).globalProcesses
        = [1000, 1001, 1002, 1003, 1004] := by
  have hreg := renderIteration_registry s
  have hkill : parseLine "kill 1001".toList = Command.kill 1001 := by decide
  have hrun : seeded.running = true := rfl
  have hafter : step seeded (Event.input (some "kill 1001".toList))
      = { running := true, globalProcesses := (eraseLoop 1001 seeded.globalProcesses).1 } := by
    simp only [step, hrun, if_true, listenerIteration, hkill, execute]
  refine ⟨by rw [hreg.1], hreg.2, by rw [hreg.1], rfl, by rw [hreg.1]; exact sample_pids,
    ?_, ?_, ?_⟩
  · cases hr : (run initial events).running
    · simp [step, hr]
    · simp only [step, hr, if_true, (renderIteration_registry _).1]
  · simp only [run, List.foldl_cons, List.foldl_nil, hafter]
    decide
  · simp only [run, List.foldl_cons, List.foldl_nil, hafter, step, if_true,
      (renderIteration_registry _).1]
    exact sample_pids

theorem sample_entries :
    getProcessesLoop 5
      = [{ pid := 1000, name := "Process_1".toList, cpuUsage := 10, memUsage := 18 },
          { pid := 1001, name := "Process_2".toList, cpuUsage := 30, memUsage := 43 },
          { pid := 1002, name := "Process_3".toList, cpuUsage := 50, memUsage := 68 },
          { pid := 1003, name := "Process_4".toList, cpuUsage := 70, memUsage := 93 },
          { pid := 1004, name := "Process_5".toList, cpuUsage := 90, memUsage := 118 }] := by
  have h : getProcessesLoop 5
      = [sampleEntry 0, sampleEntry 1, sampleEntry 2, sampleEntry 3, sampleEntry 4] := rfl
  have hname : ∀ i : Nat, (sampleEntry i).name = "Process_".toList ++ to_string ((i : Int) + 1) :=
    fun _ => rfl
  have n1 : "Process_".toList ++ to_string (((0 : Nat) : Int) + 1) = "Process_1".toList := by
    decide
  have n2 : "Process_".toList ++ to_string (((1 : Nat) : Int) + 1) = "Process_2".toList := by
    decide
  have n3 : "Process_".toList ++ to_string (((2 : Nat) : Int) + 1) = "Process_3".toList := by
    decide
  have n4 : "Process_".toList ++ to_string (((3 : Nat) : Int) + 1) = "Process_4".toList := by
    decide
  have n5 : "Process_".toList ++ to_string (((4 : Nat) : Int) + 1) = "Process_5".toList := by
    decide
  rw [h]
  simp only [sampleEntry, n1, n2, n3, n4, n5]
  norm_num

/-- Claim C18, as the code has it. The sample that `getProcesses` returns and installs
as the registry is, in this order, `(1000, Process_1, 10, 18)`, `(1001, Process_2, 30,
43)`, `(1002, Process_3, 50, 68)`, `(1003, Process_4, 70, 93)`, `(1004, Process_5, 90,
118)`: the entry of pid 1003 is named `Process_4`. -/
theorem getProcesses_sample (s : State) :
    (getProcesses s).1
        = [{ pid := 1000, name := "Process_1".toList, cpuUsage := 10, memUsage := 18 },
            { pid := 1001, name := "Process_2".toList, cpuUsage := 30, memUsage := 43 },
            { pid := 1002, name := "Process_3".toList, cpuUsage := 50, memUsage := 68 },
            { pid := 1003, name := "Process_4".toList, cpuUsage := 70, memUsage := 93 },
            { pid := 1004, name := "Process_5".toList, cpuUsage := 90, memUsage := 118 }] ∧
      (getProcesses s).2.globalProcesses = (getProcesses s).1 ∧
      (getProcesses s).2.running = s.running := by
  refine ⟨?_, rfl, rfl⟩
  show getProcessesLoop 5 = _
  exact sample_entries

/-- Claim C18 fails at the fourth entry: the sample names pid 1003 `Process_4`, so it is
not the list of the scenario, which has `Process_3` there. -/
theorem sample_fourth_name :
    ((getProcesses initial).1.map ProcessInfo.name)[3]? = some "Process_4".toList ∧
      (getProcesses initial).1
        ≠ [{ pid := 1000, name := "Process_1".toList, cpuUsage := 10, memUsage := 18 },
            { pid := 1001, name := "Process_2".toList, cpuUsage := 30, memUsage := 43 },
            { pid := 1002, name := "Process_3".toList, cpuUsage := 50, memUsage := 68 },
            { pid := 1003, name := "Process_3".toList, cpuUsage := 70, memUsage := 93 },
            { pid := 1004, name := "Process_5".toList, cpuUsage := 90, memUsage := 118 }] ∧
      (getProcesses initial).2.globalProcesses
        ≠ [{ pid := 1000, name := "Process_1".toList, cpuUsage := 10, memUsage := 18 },
            { pid := 1001, name := "Process_2".toList, cpuUsage := 30, memUsage := 43 },
            { pid := 1002, name := "Process_3".toList, cpuUsage := 50, memUsage := 68 },
            { pid := 1003, name := "Process_3".toList, cpuUsage := 70, memUsage := 93 },
            { pid := 1004, name := "Process_5".toList, cpuUsage := 90, memUsage := 118 }] := by
  have hnames : (getProcesses initial).1.map ProcessInfo.name
      = ["Process_1".toList, "Process_2".toList, "Process_3".toList, "Process_4".toList,
          "Process_5".toList] := by decide
  refine ⟨by rw [hnames]; rfl, ?_, ?_⟩
  · intro h
    have h2 := congrArg (List.map ProcessInfo.name) h
    rw [hnames] at h2
    exact absurd h2 (by decide)
  · intro h
    have h2 := congrArg (List.map ProcessInfo.name) h
    have h3 : (getProcesses initial).2.globalProcesses = (getProcesses initial).1 := rfl
    rw [h3, hnames] at h2
    exact absurd h2 (by decide)

/-! ## Selection of the command -/

/-- The trimmed line sits inside the line, between two runs of trimmed characters. -/
theorem trim_spec (l : Str) :
    ∃ a b, l = a ++ trim l ++ b ∧ (∀ c ∈ a, inTrimSet c = true) ∧
      (∀ c ∈ b, inTrimSet c = true) := by
  obtain ⟨a, core, b, hl, ha, hb, hhead, hlast⟩ := exists_trim_decomp l
  have h : trim l = core := by
    rw [hl]
    exact trim_eq_core a core b ha hb hhead hlast
  exact ⟨a, b, by rw [h]; exact hl, ha, hb⟩

theorem word_append_ws (x b : Str) (hb : ∀ c ∈ b, isspace c = true) :
    ((x ++ b).dropWhile isspace).takeWhile (fun c => !isspace c)
      = (x.dropWhile isspace).takeWhile (fun c => !isspace c) := by
  have hbnil : b.takeWhile (fun c => !isspace c) = [] := by
    cases b with
    | nil => rfl
    | cons c b => simp [List.takeWhile, hb c (List.mem_cons_self _ _)]
  have htake : ∀ y : Str, (y ++ b).takeWhile (fun c => !isspace c)
      = y.takeWhile (fun c => !isspace c) := by
    intro y
    induction y with
    | nil => simpa using hbnil
    | cons c y ih => rw [List.cons_append, List.takeWhile_cons, List.takeWhile_cons, ih]
  induction x with
  | nil =>
    have hdrop : b.dropWhile isspace = [] := by
      rw [List.dropWhile_eq_nil_iff]
      exact hb
    simp [hdrop]
  | cons c x ih =>
    by_cases hc : isspace c = true
    · rw [List.cons_append, List.dropWhile_cons_of_pos hc, List.dropWhile_cons_of_pos hc]
      exact ih
    · rw [List.cons_append, List.dropWhile_cons_of_neg hc, List.dropWhile_cons_of_neg hc,
        ← List.cons_append]
      exact htake (c :: x)

/-- The token that the listener reads from the trimmed line is the first token of the
line as read. -/
theorem extractWord_trim_fst (l : Str) : (extractWord (trim l)).1 = firstToken l := by
  obtain ⟨a, b, hl, ha, hb⟩ := trim_spec l
  have ha2 : ∀ c ∈ a, isspace c = true := fun c hc => inTrimSet_isspace c (ha c hc)
  have hb2 : ∀ c ∈ b, isspace c = true := fun c hc => inTrimSet_isspace c (hb c hc)
  have h1 : firstToken l = firstToken (a ++ trim l ++ b) := by rw [← hl]
  rw [h1]
  simp only [firstToken, extractWord]
  rw [List.append_assoc, List.dropWhile_append_of_pos ha2, word_append_ws (trim l) b hb2]

theorem parseLine_blank_iff (line : Str) :
    parseLine line = Command.blank ↔ ∀ c ∈ line, inTrimSet c = true := by
  constructor
  · intro h
    have htrim : trim line = [] := by
      by_contra hne
      unfold parseLine at h
      simp only [hne, if_false] at h
      split at h
      · exact Command.noConfusion h
      · split at h
        · split at h <;> exact Command.noConfusion h
        · split at h
          · split at h <;> exact Command.noConfusion h
          · exact Command.noConfusion h
    obtain ⟨a, b, hl, ha, hb⟩ := trim_spec line
    rw [htrim] at hl
    intro c hc
    rw [hl] at hc
    simp only [List.append_nil, List.mem_append] at hc
    rcases hc with hc | hc
    · exact ha c hc
    · exact hb c hc
  · intro h
    have htrim : trim line = [] := by simp [trim, find_first_all_ws line h]
    simp [parseLine, htrim]

/-- The four ways a non-blank line is handled. -/
theorem parseLine_classify (line : Str) (hnonblank : trim line ≠ []) :
    (lowerStr (trim line) = "stop".toList ∧ parseLine line = Command.stop) ∨
      (lowerStr (trim line) ≠ "stop".toList ∧ lowerStr (firstToken line) = "kill".toList ∧
        ((∃ pid, parseLine line = Command.kill pid) ∨
          parseLine line = Command.malformed usageKill)) ∨
      (lowerStr (trim line) ≠ "stop".toList ∧ lowerStr (firstToken line) ≠ "kill".toList ∧
        lowerStr (firstToken line) = "info".toList ∧
        ((∃ pid, parseLine line = Command.info pid) ∨
          parseLine line = Command.malformed usageInfo)) ∨
      (lowerStr (trim line) ≠ "stop".toList ∧ lowerStr (firstToken line) ≠ "kill".toList ∧
        lowerStr (firstToken line) ≠ "info".toList ∧
        parseLine line = Command.unknown (trim line)) := by
  have htok := extractWord_trim_fst line
  by_cases hs : lowerStr (trim line) = "stop".toList
  · exact Or.inl ⟨hs, by simp [parseLine, hnonblank, hs]⟩
  · by_cases hk : lowerStr (firstToken line) = "kill".toList
    · refine Or.inr (Or.inl ⟨hs, hk, ?_⟩)
      have hp : parseLine line = match extractInt (extractWord (trim line)).2 with
          | some pid => Command.kill pid
          | none => Command.malformed usageKill := by
        simp only [parseLine, hnonblank, if_false, hs, htok, hk, if_true]
      cases hx : extractInt (extractWord (trim line)).2 with
      | none => rw [hx] at hp; exact Or.inr hp
      | some pid => rw [hx] at hp; exact Or.inl ⟨pid, hp⟩
    · by_cases hi : lowerStr (firstToken line) = "info".toList
      · refine Or.inr (Or.inr (Or.inl ⟨hs, hk, hi, ?_⟩))
        have hp : parseLine line = match extractInt (extractWord (trim line)).2 with
            | some pid => Command.info pid
            | none => Command.malformed usageInfo := by
          have hik : ¬ ("info".toList = "kill".toList) := by decide
          simp only [parseLine, hnonblank, if_false, hs, htok, hi, hik, if_true]
        cases hx : extractInt (extractWord (trim line)).2 with
        | none => rw [hx] at hp; exact Or.inr hp
        | some pid => rw [hx] at hp; exact Or.inl ⟨pid, hp⟩
      · refine Or.inr (Or.inr (Or.inr ⟨hs, hk, hi, ?_⟩))
        simp only [parseLine, hnonblank, if_false, hs, htok, hk, hi]

/-- Claim C12, as the code has it. For every non-blank line: it is the stop command
exactly when the whole trimmed line is `stop` in any letter case; it is handled as
`kill` (or `info`) exactly when its first whitespace-delimited token is `kill` (or
`info`) in any letter case and the trimmed line is not `stop`; and it gets the
Unknown-command response, carrying the trimmed line, exactly when the trimmed line is not
`stop` and the first token is neither `kill` nor `info`. A line that is the stop command
has `stop` as its first token, but not every line with that first token is one. -/
theorem command_selection (line : Str) (hnonblank : trim line ≠ []) :
    (parseLine line = Command.stop ↔ lowerStr (trim line) = "stop".toList) ∧
      ((∃ t, parseLine line = Command.unknown t) ↔
        (lowerStr (trim line) ≠ "stop".toList ∧ lowerStr (firstToken line) ≠ "kill".toList ∧
          lowerStr (firstToken line) ≠ "info".toList)) ∧
      (∀ t, parseLine line = Command.unknown t → t = trim line) ∧
      (((∃ pid, parseLine line = Command.kill pid) ∨
          parseLine line = Command.malformed usageKill) ↔
        lowerStr (firstToken line) = "kill".toList) ∧
      (((∃ pid, parseLine line = Command.info pid) ∨
          parseLine line = Command.malformed usageInfo) ↔
        lowerStr (firstToken line) = "info".toList) ∧
      (parseLine line = Command.stop → lowerStr (firstToken line) = "stop".toList) := by
  have hstoptok : lowerStr (trim line) = "stop".toList →
      lowerStr (firstToken line) = "stop".toList := by
    intro hs
    have hsf := lower_spacefree (trim line) _ hs (by decide)
    have hw := extractWord_word (trim line) [] hnonblank hsf (by simp)
    rw [List.append_nil] at hw
    rw [← extractWord_trim_fst line, hw]
    exact hs
  have hkk : ¬ ("stop".toList = "kill".toList) := by decide
  have hki : ¬ ("stop".toList = "info".toList) := by decide
  have hik : ¬ ("info".toList = "kill".toList) := by decide
  have huu : usageInfo ≠ usageKill := by decide
  rcases parseLine_classify line hnonblank with
    ⟨hs, hp⟩ | ⟨hs, hk, hp⟩ | ⟨hs, hk, hi, hp⟩ | ⟨hs, hk, hi, hp⟩
  · have htok := hstoptok hs
    refine ⟨⟨fun _ => hs, fun _ => hp⟩, ⟨?_, fun h => absurd hs h.1⟩, ?_, ⟨?_, ?_⟩, ⟨?_, ?_⟩,
      fun _ => htok⟩
    · rintro ⟨t, ht⟩
      rw [hp] at ht
      exact Command.noConfusion ht
    · intro t ht
      rw [hp] at ht
      exact Command.noConfusion ht
    · rintro (⟨pid, h⟩ | h) <;> rw [hp] at h <;> exact Command.noConfusion h
    · intro h
      rw [htok] at h
      exact absurd h hkk
    · rintro (⟨pid, h⟩ | h) <;> rw [hp] at h <;> exact Command.noConfusion h
    · intro h
      rw [htok] at h
      exact absurd h hki
  · refine ⟨⟨?_, fun h => absurd h hs⟩, ⟨?_, fun h => absurd hk h.2.1⟩, ?_,
      ⟨fun _ => hk, fun _ => hp⟩, ⟨?_, ?_⟩, ?_⟩
    · intro h
      rcases hp with ⟨pid, hp⟩ | hp <;> rw [hp] at h <;> exact Command.noConfusion h
    · rintro ⟨t, ht⟩
      rcases hp with ⟨pid, hp⟩ | hp <;> rw [hp] at ht <;> exact Command.noConfusion ht
    · intro t ht
      rcases hp with ⟨pid, hp⟩ | hp <;> rw [hp] at ht <;> exact Command.noConfusion ht
    · rintro (⟨pid, h⟩ | h)
      · rcases hp with ⟨pid2, hp⟩ | hp <;> rw [hp] at h <;> exact Command.noConfusion h
      · rcases hp with ⟨pid2, hp⟩ | hp
        · rw [hp] at h
          exact Command.noConfusion h
        · rw [hp] at h
          exact absurd (Command.malformed.inj h).symm huu
    · intro h
      rw [hk] at h
      exact absurd h.symm hik
    · intro h
      rcases hp with ⟨pid, hp⟩ | hp <;> rw [hp] at h <;> exact Command.noConfusion h
  · refine ⟨⟨?_, fun h => absurd h hs⟩, ⟨?_, fun h => absurd hi h.2.2⟩, ?_,
      ⟨?_, fun h => absurd h hk⟩, ⟨fun _ => hi, fun _ => hp⟩, ?_⟩
    · intro h
      rcases hp with ⟨pid, hp⟩ | hp <;> rw [hp] at h <;> exact Command.noConfusion h
    · rintro ⟨t, ht⟩
      rcases hp with ⟨pid, hp⟩ | hp <;> rw [hp] at ht <;> exact Command.noConfusion ht
    · intro t ht
      rcases hp with ⟨pid, hp⟩ | hp <;> rw [hp] at ht <;> exact Command.noConfusion ht
    · rintro (⟨pid, h⟩ | h)
      · rcases hp with ⟨pid2, hp⟩ | hp <;> rw [hp] at h <;> exact Command.noConfusion h
      · rcases hp with ⟨pid2, hp⟩ | hp
        · rw [hp] at h
          exact Command.noConfusion h
        · rw [hp] at h
          exact absurd (Command.malformed.inj h) huu
    · intro h
      rcases hp with ⟨pid, hp⟩ | hp <;> rw [hp] at h <;> exact Command.noConfusion h
  · refine ⟨⟨?_, fun h => absurd h hs⟩, ⟨fun _ => ⟨hs, hk, hi⟩, fun _ => ⟨_, hp⟩⟩, ?_,
      ⟨?_, fun h => absurd h hk⟩, ⟨?_, fun h => absurd h hi⟩, ?_⟩
    · intro h
      rw [hp] at h
      exact Command.noConfusion h
    · intro t ht
      rw [hp] at ht
      exact (Command.unknown.inj ht).symm
    · rintro (⟨pid, h⟩ | h) <;> rw [hp] at h <;> exact Command.noConfusion h
    · rintro (⟨pid, h⟩ | h) <;> rw [hp] at h <;> exact Command.noConfusion h
    · intro h
      rw [hp] at h
      exact Command.noConfusion h

theorem command_selection_witness :
    (parseLine "stop now".toList = Command.stop
        ↔ lowerStr (trim "stop now".toList) = "stop".toList) ∧
      ((∃ t, parseLine "stop now".toList = Command.unknown t) ↔
        (lowerStr (trim "stop now".toList) ≠ "stop".toList ∧
          lowerStr (firstToken "stop now".toList) ≠ "kill".toList ∧
          lowerStr (firstToken "stop now".toList) ≠ "info".toList)) ∧
      (∀ t, parseLine "stop now".toList = Command.unknown t → t = trim "stop now".toList) ∧
      (((∃ pid, parseLine "stop now".toList = Command.kill pid) ∨
          parseLine "stop now".toList = Command.malformed usageKill) ↔
        lowerStr (firstToken "stop now".toList) = "kill".toList) ∧
      (((∃ pid, parseLine "stop now".toList = Command.info pid) ∨
          parseLine "stop now".toList = Command.malformed usageInfo) ↔
        lowerStr (firstToken "stop now".toList) = "info".toList) ∧
      (parseLine "stop now".toList = Command.stop
        → lowerStr (firstToken "stop now".toList) = "stop".toList) :=
  command_selection "stop now".toList (by decide)

/-- Claim C12 fails on `stop` followed by text: the first token of `stop now` and of
`STOP 1` is `stop`, yet the lines get the Unknown-command response, not Stop. -/
theorem stop_with_text_unknown :
    lowerStr (firstToken "stop now".toList) = "stop".toList ∧
      parseLine "stop now".toList = Command.unknown "stop now".toList ∧
      parseLine "stop now".toList ≠ Command.stop ∧
      lowerStr (firstToken "STOP 1".toList) = "stop".toList ∧
      parseLine "STOP 1".toList = Command.unknown "STOP 1".toList ∧
      (listenerIteration seeded (some "stop now".toList)).state.running = true ∧
      (listenerIteration seeded (some "stop now".toList)).output
        = unknownMsg "stop now".toList := by
  have h1 : parseLine "stop now".toList = Command.unknown "stop now".toList := by decide
  refine ⟨by decide, h1, by decide, by decide, by decide, ?_, ?_⟩
  · simp only [listenerIteration, h1, execute]
    rfl
  · simp only [listenerIteration, h1, execute]

/-- Claim C15, as the code has it. A line that is empty or made only of the characters
`trim` strips (space, tab, carriage return, line feed) is skipped: nothing is printed,
the globals are unchanged, and the listener goes on with the next line as if the line
had not been there. -/
theorem blank_line_noop (s : State) (line : Str) (rest : List Str)
    (hblank : ∀ c ∈ line, inTrimSet c = true) :
    parseLine line = Command.blank ∧
      listenerIteration s (some line) = { state := s, output := [], continues := true } ∧
      (listenerIteration s (some line)).output = [] ∧
      (listenerIteration s (some line)).state.running = s.running ∧
      (listenerIteration s (some line)).state.globalProcesses = s.globalProcesses ∧
      inputListener s (line :: rest) = inputListener s rest := by
  have hp : parseLine line = Command.blank := (parseLine_blank_iff line).mpr hblank
  have hstep : listenerIteration s (some line)
      = { state := s, output := [], continues := true } := by
    simp only [listenerIteration, hp, execute]
  refine ⟨hp, hstep, by rw [hstep], by rw [hstep], by rw [hstep], ?_⟩
  cases hr : s.running
  · rw [inputListener_stopped s _ hr, inputListener_stopped s _ hr]
  · simp only [inputListener, hr, if_true, hstep, List.nil_append]

theorem blank_line_noop_witness :
    parseLine " \t \x0d".toList = Command.blank ∧
      listenerIteration seeded (some " \t \x0d".toList)
        = { state := seeded, output := [], continues := true } ∧
      (listenerIteration seeded (some " \t \x0d".toList)).output = [] ∧
      (listenerIteration seeded (some " \t \x0d".toList)).state.running = seeded.running ∧
      (listenerIteration seeded (some " \t \x0d".toList)).state.globalProcesses
        = seeded.globalProcesses ∧
      inputListener seeded (" \t \x0d".toList :: ["kill 1001".toList])
        = inputListener seeded ["kill 1001".toList] :=
  blank_line_noop seeded " \t \x0d".toList ["kill 1001".toList] (by decide)

/-- Claim C15 fails for a line made only of a vertical tab or only of a form feed,
whitespace that `trim` does not strip: the line is not skipped, it gets the
Unknown-command message. -/
theorem vertical_tab_line_unknown :
    isspace '\x0b' = true ∧ isspace '\x0c' = true ∧
      parseLine "\x0b".toList = Command.unknown "\x0b".toList ∧
      parseLine "\x0c".toList = Command.unknown "\x0c".toList ∧
      parseLine " \x0b ".toList = Command.unknown "\x0b".toList ∧
      (listenerIteration seeded (some "\x0b".toList)).output = unknownMsg "\x0b".toList ∧
      (listenerIteration seeded (some "\x0b".toList)).output ≠ [] := by
  have h : parseLine "\x0b".toList = Command.unknown "\x0b".toList := by decide
  have hout : (listenerIteration seeded (some "\x0b".toList)).output
      = unknownMsg "\x0b".toList := by
    simp only [listenerIteration, h, execute]
  refine ⟨by decide, by decide, h, by decide, by decide, hout, ?_⟩
  rw [hout]
  decide

end Dashboard
